import Mathlib

set_option linter.unusedVariables false

/-!
Shallow embedding of src/maze.js: a maze visualizer with four solvers
(BFS, DFS, a six-walker bidirectional DFS called MT_M2, and a pruning
pipeline called MT_M1) over a bit-packed cell store.

Modelling conventions, used throughout:
- JavaScript numbers are modelled as Int where signs occur (positions,
  dimensions, visit orders, counts) and as Nat for the bit-packed cell
  words.  Every stored cell word is below 2^24, so 32-bit wrap never
  occurs; the JavaScript 32-bit complement (~m) of a mask m is written
  0xFFFFFFFF ^^^ m, which agrees with the JavaScript value on every
  word the program ever stores.
- Int32Array semantics are modelled exactly: a write at an out-of-range
  index is ignored, a read at an out-of-range index yields undefined
  (surfaced as none where the code can observe it).
- Generator functions are modelled as fuel-driven step machines that
  return the list of yielded phase tokens together with the final state;
  when the fuel runs out the token list simply ends without a terminal
  token (the JavaScript generator would still be running).
-/

inductive Direction where
  | North
  | East
  | South
  | West
  | Uninitialized
  deriving DecidableEq, Repr

namespace InternalBit

def EAST_BIT : Nat := 1
def SOUTH_BIT : Nat := 2
def VISITED_BIT : Nat := 4
def PATH_BIT : Nat := 8
def PARENT_NORTH : Nat := 16
def PARENT_EAST : Nat := 32
def PARENT_SOUTH : Nat := 64
def PARENT_WEST : Nat := 128
def PARENT_MASK : Nat := 240
def ON_STACK_BIT : Nat := 256
def DEAD_N : Nat := 0x1000
def DEAD_E : Nat := 0x2000
def DEAD_S : Nat := 0x4000
def DEAD_W : Nat := 0x8000
def OCCUPIED_N : Nat := 0x10000
def OCCUPIED_E : Nat := 0x20000
def OCCUPIED_S : Nat := 0x40000
def OCCUPIED_W : Nat := 0x80000
def VISITED_TB : Nat := 0x100000
def VISITED_BT : Nat := 0x200000
def DEAD_JUNCTION_BIT : Nat := 0x400000
def PRUNED_BIT : Nat := 0x800000

end InternalBit

structure Position where
  row : Int
  col : Int
  deriving DecidableEq, Repr

def Position.move (p : Position) (dir : Direction) : Position :=
  if dir = Direction.North then ⟨p.row - 1, p.col⟩
  else if dir = Direction.South then ⟨p.row + 1, p.col⟩
  else if dir = Direction.East then ⟨p.row, p.col + 1⟩
  else if dir = Direction.West then ⟨p.row, p.col - 1⟩
  else p

def reverseDir (d : Direction) : Direction :=
  if d = Direction.North then Direction.South
  else if d = Direction.South then Direction.North
  else if d = Direction.East then Direction.West
  else if d = Direction.West then Direction.East
  else Direction.Uninitialized

/-- The 32-bit complement ~n of JavaScript, for operands below 2^32. -/
def jsNot (n : Nat) : Nat := 0xFFFFFFFF ^^^ n

/-- The four real directions, in the fixed N, E, S, W order the source uses. -/
def dirs4 : List Direction :=
  [Direction.North, Direction.East, Direction.South, Direction.West]

structure Maze where
  width : Int
  height : Int
  cells : List Nat
  visitOrder : List Int
  thread_ownership : List (Int × Nat)
  deriving DecidableEq, Repr

namespace Maze

def cellIndex (m : Maze) (pos : Position) : Int :=
  pos.row * m.width + pos.col

/-- Write of visitOrder[idx]; an out-of-range Int32Array write is ignored. -/
def setVisitOrder (m : Maze) (pos : Position) (order : Int) : Maze :=
  let idx := m.cellIndex pos
  if 0 ≤ idx ∧ idx < (m.visitOrder.length : Int) then
    { m with visitOrder := m.visitOrder.set idx.toNat order }
  else m

/-- Read of visitOrder[idx]; an out-of-range read gives undefined (none). -/
def getVisitOrder (m : Maze) (pos : Position) : Option Int :=
  let idx := m.cellIndex pos
  if 0 ≤ idx ∧ idx < (m.visitOrder.length : Int) then
    some (m.visitOrder.getD idx.toNat 0)
  else none

def getStart (m : Maze) : Position := ⟨0, m.width / 2⟩

def getEnd (m : Maze) : Position := ⟨m.height - 1, m.width / 2⟩

def getCell (m : Maze) (pos : Position) : Nat :=
  if 0 ≤ pos.row ∧ pos.row < m.height ∧ 0 ≤ pos.col ∧ pos.col < m.width then
    m.cells.getD (m.cellIndex pos).toNat 0
  else 0

/-- Write of poMazeData[idx]; an out-of-range Int32Array write is ignored. -/
def setCell (m : Maze) (pos : Position) (value : Nat) : Maze :=
  let idx := m.cellIndex pos
  if 0 ≤ idx ∧ idx < (m.cells.length : Int) then
    { m with cells := m.cells.set idx.toNat value }
  else m

def hasFlag (m : Maze) (pos : Position) (val : Nat) : Bool :=
  (m.getCell pos &&& val) != 0

def setFlag (m : Maze) (pos : Position) (val : Nat) : Maze :=
  m.setCell pos (m.getCell pos ||| val)

def clearFlag (m : Maze) (pos : Position) (val : Nat) : Maze :=
  m.setCell pos (m.getCell pos &&& jsNot val)

def canMove (m : Maze) (pos : Position) (direction : Direction) : Bool :=
  if direction = Direction.North then
    if pos.row == 0 then false
    else !(m.hasFlag (pos.move Direction.North) InternalBit.SOUTH_BIT)
  else if direction = Direction.South then
    if pos.row == m.height - 1 then false
    else !(m.hasFlag pos InternalBit.SOUTH_BIT)
  else if direction = Direction.East then
    if pos.col == m.width - 1 then false
    else !(m.hasFlag pos InternalBit.EAST_BIT)
  else if direction = Direction.West then
    if pos.col == 0 then false
    else !(m.hasFlag (pos.move Direction.West) InternalBit.EAST_BIT)
  else false

def isJunction (m : Maze) (pos : Position) : Bool :=
  let exits :=
    (if m.canMove pos Direction.North then 1 else 0) +
    (if m.canMove pos Direction.South then 1 else 0) +
    (if m.canMove pos Direction.East then 1 else 0) +
    (if m.canMove pos Direction.West then 1 else 0)
  exits > 2

def setDirectionRouteBT (m : Maze) (pos : Position) (parent_dir : Direction) : Maze :=
  let val := m.getCell pos
  let val := val &&& jsNot InternalBit.PARENT_MASK
  let val := val ||| InternalBit.VISITED_BIT
  let val :=
    if parent_dir = Direction.North then val ||| InternalBit.PARENT_NORTH
    else if parent_dir = Direction.East then val ||| InternalBit.PARENT_EAST
    else if parent_dir = Direction.South then val ||| InternalBit.PARENT_SOUTH
    else if parent_dir = Direction.West then val ||| InternalBit.PARENT_WEST
    else val
  m.setCell pos val

def getDirectionRouteBT (m : Maze) (pos : Position) : Direction :=
  let val := m.getCell pos
  if val &&& InternalBit.PARENT_NORTH != 0 then Direction.North
  else if val &&& InternalBit.PARENT_EAST != 0 then Direction.East
  else if val &&& InternalBit.PARENT_SOUTH != 0 then Direction.South
  else if val &&& InternalBit.PARENT_WEST != 0 then Direction.West
  else Direction.Uninitialized

def markPath (m : Maze) (pos : Position) : Maze :=
  m.setFlag pos InternalBit.PATH_BIT

def markOnStack (m : Maze) (pos : Position) (on_stack : Bool) : Maze :=
  if on_stack then m.setFlag pos InternalBit.ON_STACK_BIT
  else m.clearFlag pos InternalBit.ON_STACK_BIT

def checkBranchDead (m : Maze) (pos : Position) (dir : Direction) : Bool :=
  let bit :=
    if dir = Direction.North then InternalBit.DEAD_N
    else if dir = Direction.East then InternalBit.DEAD_E
    else if dir = Direction.South then InternalBit.DEAD_S
    else if dir = Direction.West then InternalBit.DEAD_W
    else 0
  m.hasFlag pos bit

def setBranchDeadFromOrigin (m : Maze) (pos : Position) (dir : Direction) : Maze :=
  let bit :=
    if dir = Direction.North then InternalBit.DEAD_N
    else if dir = Direction.East then InternalBit.DEAD_E
    else if dir = Direction.South then InternalBit.DEAD_S
    else if dir = Direction.West then InternalBit.DEAD_W
    else 0
  m.setFlag pos bit

def checkBranchOccupied (m : Maze) (pos : Position) (dir : Direction) : Bool :=
  let bit :=
    if dir = Direction.North then InternalBit.OCCUPIED_N
    else if dir = Direction.East then InternalBit.OCCUPIED_E
    else if dir = Direction.South then InternalBit.OCCUPIED_S
    else if dir = Direction.West then InternalBit.OCCUPIED_W
    else 0
  m.hasFlag pos bit

def setBranchOccupied (m : Maze) (pos : Position) (dir : Direction) : Maze :=
  let bit :=
    if dir = Direction.North then InternalBit.OCCUPIED_N
    else if dir = Direction.East then InternalBit.OCCUPIED_E
    else if dir = Direction.South then InternalBit.OCCUPIED_S
    else if dir = Direction.West then InternalBit.OCCUPIED_W
    else 0
  m.setFlag pos bit

def markVisitedTeam (m : Maze) (pos : Position) (is_tb : Bool) : Maze :=
  if is_tb then m.setFlag pos InternalBit.VISITED_TB
  else m.setFlag pos InternalBit.VISITED_BT

def markDeadJunction (m : Maze) (pos : Position) : Maze :=
  ((m.clearFlag pos InternalBit.VISITED_TB).clearFlag pos
    InternalBit.VISITED_BT).setFlag pos InternalBit.DEAD_JUNCTION_BIT

def unmarkVisitedTeam (m : Maze) (pos : Position) : Maze :=
  ((m.clearFlag pos InternalBit.VISITED_TB).clearFlag pos
    InternalBit.VISITED_BT).clearFlag pos InternalBit.VISITED_BIT

def isVisitedByTeam (m : Maze) (pos : Position) (is_tb : Bool) : Bool :=
  if is_tb then m.hasFlag pos InternalBit.VISITED_TB
  else m.hasFlag pos InternalBit.VISITED_BT

/-- Map.set of the thread ownership map, keyed by the raw cell index. -/
def setThreadOwner (m : Maze) (pos : Position) (thread_id : Nat) : Maze :=
  { m with thread_ownership :=
      (m.cellIndex pos, thread_id) :: m.thread_ownership }

/-- Map.get of the thread ownership map, defaulting to -1 when absent. -/
def getThreadOwner (m : Maze) (pos : Position) : Int :=
  match m.thread_ownership.lookup (m.cellIndex pos) with
  | some v => (v : Int)
  | none => -1

def markPruned (m : Maze) (pos : Position) : Maze :=
  m.setFlag pos InternalBit.PRUNED_BIT

def isPruned (m : Maze) (pos : Position) : Bool :=
  m.hasFlag pos InternalBit.PRUNED_BIT

/-- Directions d with canMove pos d whose neighbour is not pruned, probed
in the fixed N, S, E, W order of the source. -/
def getAvailableMovesNoPruned (m : Maze) (pos : Position) : List Direction :=
  [Direction.North, Direction.South, Direction.East, Direction.West].filter
    (fun d => m.canMove pos d && !(m.isPruned (pos.move d)))

/-- A position is inside the grid of the maze. -/
def InGrid (m : Maze) (p : Position) : Prop :=
  0 ≤ p.row ∧ p.row < m.height ∧ 0 ≤ p.col ∧ p.col < m.width

instance (m : Maze) (p : Position) : Decidable (m.InGrid p) := by
  unfold InGrid; infer_instance

end Maze

/-! ## Geometry lemmas -/

theorem Maze.canMove_symm (m : Maze) (p : Position) (d : Direction)
    (hd : d ∈ dirs4) (hp : m.InGrid p) (hq : m.InGrid (p.move d)) :
    m.canMove p d = m.canMove (p.move d) (reverseDir d) := by
  rcases hp with ⟨hr0, hrh, hc0, hcw⟩
  simp only [dirs4, List.mem_cons, List.not_mem_nil, or_false] at hd
  rcases hd with rfl | rfl | rfl | rfl <;>
      simp [Position.move, Maze.InGrid] at hq <;>
      obtain ⟨h1, h2, h3, h4⟩ := hq
  · have e1 : ¬(p.row = 0) := by omega
    have e2 : ¬(p.row - 1 = m.height - 1) := by omega
    simp [Maze.canMove, Position.move, reverseDir, e1, e2]
  · have e1 : ¬(p.col = m.width - 1) := by omega
    have e2 : ¬(p.col + 1 = 0) := by omega
    simp [Maze.canMove, Position.move, reverseDir, e1, e2]
  · have e1 : ¬(p.row = m.height - 1) := by omega
    have e2 : ¬(p.row + 1 = 0) := by omega
    simp [Maze.canMove, Position.move, reverseDir, e1, e2]
  · have e1 : ¬(p.col = 0) := by omega
    have e2 : ¬(p.col - 1 = m.width - 1) := by omega
    simp [Maze.canMove, Position.move, reverseDir, e1, e2]

/-- A trivial 1 by 1 maze with no wall bits. -/
def mazeTriv : Maze := ⟨1, 1, [0], [-1], []⟩

/-- A 1-wide, 2-high maze with no wall bits. -/
def mazeTwo : Maze := ⟨1, 2, [0, 0], [-1, -1], []⟩

/-- C10: the geometry primitives are total over the full Direction enum:
moving by Uninitialized returns the same position, and canMove with
Uninitialized is false, so the sentinel never moves and never opens an
edge. -/
theorem C10_uninitialized_geometry_total (m : Maze) (p : Position) :
    p.move Direction.Uninitialized = p ∧
    m.canMove p Direction.Uninitialized = false := by
  constructor
  · simp [Position.move]
  · simp [Maze.canMove]

/-- C5 counterexample: on a 1 by 1 maze, canMove at (0,0) towards North is
false (grid edge) while canMove from the out-of-grid neighbour (-1,0)
towards South is true, because getCell returns 0 out of the grid; so the
claimed symmetry for every position, including positions outside the
grid, is false. -/
theorem C5_counterexample :
    ¬ (mazeTriv.canMove ⟨0, 0⟩ Direction.North =
       mazeTriv.canMove ((⟨0, 0⟩ : Position).move Direction.North)
         (reverseDir Direction.North)) := by
  decide

/-- C5 amended: canMove is symmetric, canMove p d = canMove (p.move d)
(reverse d), whenever both p and p.move d lie inside the grid; at the
grid boundary the equality fails. -/
theorem C5_canMove_symmetric_in_grid (m : Maze) (p : Position) (d : Direction)
    (hd : d ∈ dirs4) (hp : m.InGrid p) (hq : m.InGrid (p.move d)) :
    m.canMove p d = m.canMove (p.move d) (reverseDir d) :=
  Maze.canMove_symm m p d hd hp hq

/-- C5 witness: the amended symmetry applied at a concrete in-grid pair of
a concrete maze. -/
theorem C5_witness :
    Direction.South ∈ dirs4 ∧ mazeTwo.InGrid ⟨0, 0⟩ ∧
      mazeTwo.InGrid ((⟨0, 0⟩ : Position).move Direction.South) ∧
      mazeTwo.canMove ⟨0, 0⟩ Direction.South =
        mazeTwo.canMove ((⟨0, 0⟩ : Position).move Direction.South)
          (reverseDir Direction.South) :=
  ⟨by decide, by decide, by decide,
    C5_canMove_symmetric_in_grid mazeTwo ⟨0, 0⟩ Direction.South
      (by decide) (by decide) (by decide)⟩

/-! ## Reset -/

/-- The mask cleared by Reset: VISITED, PATH, PARENT_MASK, ON_STACK,
PRUNED and 0xFFFF000, as in the source. -/
def resetClearMask : Nat :=
  InternalBit.VISITED_BIT ||| InternalBit.PATH_BIT |||
  InternalBit.PARENT_MASK ||| InternalBit.ON_STACK_BIT |||
  InternalBit.PRUNED_BIT ||| 0xFFFF000

def Maze.Reset (m : Maze) : Maze :=
  { m with
    cells := m.cells.map (fun v => v &&& jsNot resetClearMask),
    visitOrder := m.visitOrder.mapIdx
      (fun i v => if i < m.cells.length then (-1 : Int) else v),
    thread_ownership := [] }

/-- The union of every bit the program ever sets in a cell word: the two
wall bits, VISITED, PATH, the four parent bits, ON_STACK, the four DEAD
and four OCCUPIED branch bits, the two team bits, DEAD_JUNCTION and
PRUNED.  Every maze state reachable from a loaded maze has all its cell
words inside this mask. -/
def usedBits : Nat :=
  InternalBit.EAST_BIT ||| InternalBit.SOUTH_BIT |||
  InternalBit.VISITED_BIT ||| InternalBit.PATH_BIT |||
  InternalBit.PARENT_MASK ||| InternalBit.ON_STACK_BIT |||
  InternalBit.DEAD_N ||| InternalBit.DEAD_E ||| InternalBit.DEAD_S |||
  InternalBit.DEAD_W ||| InternalBit.OCCUPIED_N ||| InternalBit.OCCUPIED_E |||
  InternalBit.OCCUPIED_S ||| InternalBit.OCCUPIED_W |||
  InternalBit.VISITED_TB ||| InternalBit.VISITED_BT |||
  InternalBit.DEAD_JUNCTION_BIT ||| InternalBit.PRUNED_BIT

theorem resetCell_of_used (v : Nat) (h : v &&& usedBits = v) :
    v &&& jsNot resetClearMask =
      v &&& (InternalBit.EAST_BIT ||| InternalBit.SOUTH_BIT) := by
  have h3 : usedBits &&& jsNot resetClearMask =
      InternalBit.EAST_BIT ||| InternalBit.SOUTH_BIT := by decide
  calc v &&& jsNot resetClearMask
      = (v &&& usedBits) &&& jsNot resetClearMask := by rw [h]
    _ = v &&& (usedBits &&& jsNot resetClearMask) := Nat.land_assoc v _ _
    _ = v &&& (InternalBit.EAST_BIT ||| InternalBit.SOUTH_BIT) := by rw [h3]

/-- C6: on every reachable state (all cell words inside the used-bit
mask), Reset keeps exactly the EAST and SOUTH wall bits of every cell,
clears every other bit, empties the thread ownership map, and, when the
two arrays have the same length as they do for every loaded maze, sets
every visit-order entry to -1. -/
theorem C6_reset_frame (m : Maze)
    (hreach : ∀ v ∈ m.cells, v &&& usedBits = v) :
    m.Reset.cells =
        m.cells.map (fun v => v &&& (InternalBit.EAST_BIT ||| InternalBit.SOUTH_BIT)) ∧
    m.Reset.thread_ownership = [] ∧
    (m.visitOrder.length = m.cells.length →
      m.Reset.visitOrder = m.visitOrder.map (fun _ => (-1 : Int))) := by
  refine ⟨?_, rfl, ?_⟩
  · simp only [Maze.Reset]
    exact List.map_congr_left (fun v hv => resetCell_of_used v (hreach v hv))
  · intro hlen
    simp only [Maze.Reset]
    apply List.ext_get
    · simp
    · intro i h1 h2
      simp only [List.get_eq_getElem] at *
      rw [List.getElem_mapIdx, List.getElem_map]
      have : i < m.cells.length := by simpa [hlen] using h2
      simp [this]

/-- C6 witness: the Reset frame property applied to a concrete reachable
maze state. -/
theorem C6_witness :
    (∀ v ∈ (Maze.mk 2 1 [7, 0x123] [5, 9] [(0, 3)]).cells, v &&& usedBits = v) ∧
    (Maze.mk 2 1 [7, 0x123] [5, 9] [(0, 3)]).Reset.cells =
        (Maze.mk 2 1 [7, 0x123] [5, 9] [(0, 3)]).cells.map
          (fun v => v &&& (InternalBit.EAST_BIT ||| InternalBit.SOUTH_BIT)) :=
  ⟨by decide, (C6_reset_frame _ (by decide)).1⟩

/-! ## Binary loader -/

/-- Little-endian unsigned 32-bit read from the byte buffer; a DataView
read past the end of the buffer throws a RangeError.  The body of the
loader shifts the word right twice per cell and masks the low bits, and
only ever looks at the low 32 bits, so the unsigned value is
observationally the same as the signed getInt32 value of the source. -/
def readU32 (bytes : List Nat) (off : Nat) : Except String Nat :=
  if off + 4 ≤ bytes.length then
    Except.ok (bytes.getD off 0 + 256 * bytes.getD (off + 1) 0 +
      65536 * bytes.getD (off + 2) 0 + 16777216 * bytes.getD (off + 3) 0)
  else Except.error "RangeError"

/-- Two's-complement reinterpretation of an unsigned 32-bit value. -/
def toSigned32 (n : Nat) : Int :=
  if n < 0x80000000 then (n : Int) else (n : Int) - 0x100000000

/-- Little-endian signed 32-bit read, the getInt32 of the source. -/
def readI32 (bytes : List Nat) (off : Nat) : Except String Int :=
  (readU32 bytes off).map toSigned32

/-- Write into the cell array at a raw index; out of range is ignored. -/
def listSetCell (cells : List Nat) (idx : Int) (val : Nat) : List Nat :=
  if 0 ≤ idx ∧ idx < (cells.length : Int) then cells.set idx.toNat val
  else cells

/-- The inner 16-cell unpacking loop of the loader: two bits per cell,
low bits first, bit 0 the east wall and bit 1 the south wall. -/
def loadChunk : Nat → Nat → Int → Int → Int → List Nat → Int × List Nat
  | 0, _, _, _, col, cells => (col, cells)
  | i + 1, bits, width, row, col, cells =>
    if width ≤ col then (col, cells)
    else
      let east := bits &&& 1
      let south := (bits >>> 1) &&& 1
      let idx := row * width + col
      let val : Nat := 0
      let val := if east ≠ 0 then val ||| InternalBit.EAST_BIT else val
      let val := if south ≠ 0 then val ||| InternalBit.SOUTH_BIT else val
      let cells := listSetCell cells idx val
      loadChunk i (bits >>> 2) width row (col + 1) cells

/-- The while loop of the loader that fills one row, reading one 32-bit
word per pass; it stops when the row is full or the buffer is exhausted.
The fuel only bounds the iteration count; running out of fuel is
reported as an error so that no theorem can mistake an interrupted loop
for a completed one (width + 1 passes always suffice, because every pass
advances col by at least one). -/
def loadRowLoop (bytes : List Nat) (width row : Int) :
    Nat → Int → Nat → List Nat → Except String (List Nat × Nat)
  | 0, _, _, _ => Except.error "FUEL"
  | fuel + 1, col, offset, cells =>
    if col < width then
      if (bytes.length : Int) ≤ (offset : Int) then Except.ok (cells, offset)
      else do
        let bits ← readU32 bytes offset
        let res := loadChunk 16 bits width row col cells
        loadRowLoop bytes width row fuel res.1 (offset + 4) res.2
    else Except.ok (cells, offset)

/-- The outer row loop of the loader. -/
def loadRows (bytes : List Nat) (width : Int) :
    Nat → Int → Nat → List Nat → Except String (List Nat × Nat)
  | 0, _, offset, cells => Except.ok (cells, offset)
  | rows + 1, row, offset, cells => do
    let res ← loadRowLoop bytes width row (width.toNat + 1) 0 offset cells
    loadRows bytes width rows (row + 1) res.2 res.1

/-- The loader: header of three signed 32-bit words (width, height,
solvable), then one 32-bit word per 16 cells of a row, two bits per
cell.  A DataView read past the buffer end and a negative typed-array
length both throw a RangeError; there is no validation beyond that, and
a body that ends early simply leaves the remaining cells zero. -/
def Maze.Load (bytes : List Nat) : Except String Maze := do
  let width ← readI32 bytes 0
  let height ← readI32 bytes 4
  let _solvable ← readI32 bytes 8
  let size := width * height
  if size < 0 then throw "RangeError: invalid typed array length"
  else do
    let cells0 : List Nat := List.replicate size.toNat 0
    let vo : List Int := List.replicate size.toNat (-1)
    let res ← loadRows bytes width height.toNat 0 12 cells0
    Except.ok { width := width, height := height, cells := res.1,
                visitOrder := vo, thread_ownership := [] }

/-! ## Loader lemmas for C8 -/

theorem loadChunk_col_mono : ∀ (i bits : Nat) (width row col : Int) (cells : List Nat),
    col ≤ (loadChunk i bits width row col cells).1 := by
  intro i
  induction i with
  | zero => intro bits width row col cells; simp [loadChunk]
  | succ n ih =>
    intro bits width row col cells
    simp only [loadChunk]
    split
    · exact le_refl col
    · exact le_trans (by omega) (ih _ _ _ _ _)

theorem loadChunk_col_lt (bits : Nat) (width row col : Int) (cells : List Nat)
    (h : col < width) : col + 1 ≤ (loadChunk 16 bits width row col cells).1 := by
  rw [show (16 : Nat) = 15 + 1 from rfl]
  simp only [loadChunk]
  rw [if_neg (by omega)]
  exact loadChunk_col_mono 15 _ _ _ _ _

theorem loadRowLoop_ok (bytes : List Nat) (width row : Int)
    (hlen : 4 ∣ bytes.length) :
    ∀ (fuel : Nat) (col : Int) (offset : Nat) (cells : List Nat),
    4 ∣ offset → (width - col).toNat < fuel →
    ∃ r, loadRowLoop bytes width row fuel col offset cells = Except.ok r ∧ 4 ∣ r.2 := by
  intro fuel
  induction fuel with
  | zero => intro col offset cells hoff hf; omega
  | succ n ih =>
    intro col offset cells hoff hf
    simp only [loadRowLoop]
    split
    case isTrue hcol =>
      split
      case isTrue => exact ⟨_, rfl, hoff⟩
      case isFalse hoff2 =>
        have hread : offset + 4 ≤ bytes.length := by
          obtain ⟨a, ha⟩ := hoff
          obtain ⟨b, hb⟩ := hlen
          omega
        have hcol2 : col + 1 ≤ (loadChunk 16
            (bytes.getD offset 0 + 256 * bytes.getD (offset + 1) 0 +
              65536 * bytes.getD (offset + 2) 0 + 16777216 * bytes.getD (offset + 3) 0)
            width row col cells).1 :=
          loadChunk_col_lt _ _ _ _ _ hcol
        have hfuel2 : (width - (loadChunk 16
            (bytes.getD offset 0 + 256 * bytes.getD (offset + 1) 0 +
              65536 * bytes.getD (offset + 2) 0 + 16777216 * bytes.getD (offset + 3) 0)
            width row col cells).1).toNat < n := by omega
        obtain ⟨r, hr, hdr⟩ := ih _ (offset + 4) _ (by omega) hfuel2
        refine ⟨r, ?_, hdr⟩
        simp only [readU32, if_pos hread]
        exact hr
    case isFalse => exact ⟨_, rfl, hoff⟩

theorem loadRows_ok (bytes : List Nat) (width : Int)
    (hlen : 4 ∣ bytes.length) :
    ∀ (rows : Nat) (row : Int) (offset : Nat) (cells : List Nat),
    4 ∣ offset →
    ∃ r, loadRows bytes width rows row offset cells = Except.ok r := by
  intro rows
  induction rows with
  | zero => intro row offset cells hoff; exact ⟨_, rfl⟩
  | succ n ih =>
    intro row offset cells hoff
    obtain ⟨r, hr, hdr⟩ := loadRowLoop_ok bytes width row hlen (width.toNat + 1) 0 offset cells hoff (by omega)
    obtain ⟨r2, hr2⟩ := ih (row + 1) r.2 r.1 hdr
    refine ⟨r2, ?_⟩
    simp only [loadRows, hr]
    exact hr2

theorem load_short_header (bytes : List Nat) (h : bytes.length < 12) :
    Maze.Load bytes = Except.error "RangeError" := by
  unfold Maze.Load readI32 readU32
  by_cases h1 : 0 + 4 ≤ bytes.length
  · by_cases h2 : 4 + 4 ≤ bytes.length
    · have h3 : ¬ (8 + 4 ≤ bytes.length) := by omega
      simp [h1, h2, h3, Except.map, bind, Except.bind]
    · simp [h1, h2, Except.map, bind, Except.bind]
  · simp [h1, Except.map, bind, Except.bind]

theorem load_ok_of_truncated_body (bytes : List Nat) (w h : Int)
    (hlen : 12 ≤ bytes.length) (hdvd : 4 ∣ bytes.length)
    (hw : readI32 bytes 0 = Except.ok w) (hh : readI32 bytes 4 = Except.ok h)
    (hw0 : 0 ≤ w) (hh0 : 0 ≤ h) :
    ∃ m, Maze.Load bytes = Except.ok m ∧ m.width = w ∧ m.height = h := by
  have hs : ∃ s, readI32 bytes 8 = Except.ok s := by
    have h12 : 8 + 4 ≤ bytes.length := by omega
    refine ⟨toSigned32 (bytes.getD 8 0 + 256 * bytes.getD 9 0 +
      65536 * bytes.getD 10 0 + 16777216 * bytes.getD 11 0), ?_⟩
    simp [readI32, readU32, h12, Except.map]
  obtain ⟨s, hs⟩ := hs
  obtain ⟨r, hr⟩ := loadRows_ok bytes w hdvd h.toNat 0 12 (List.replicate (w * h).toNat 0) (by omega)
  refine ⟨⟨w, h, r.1, List.replicate (w * h).toNat (-1), []⟩, ?_, rfl, rfl⟩
  unfold Maze.Load
  rw [hw]
  show (readI32 bytes 4 >>= _) = _
  rw [hh]
  show (readI32 bytes 8 >>= _) = _
  rw [hs]
  show (if w * h < 0 then _ else _) = _
  rw [if_neg (by simp [not_lt]; exact mul_nonneg hw0 hh0)]
  show (loadRows bytes w h.toNat 0 12 _ >>= _) = _
  rw [hr]
  rfl

theorem load_negative_size (bytes : List Nat) (w h : Int)
    (hlen : 12 ≤ bytes.length)
    (hw : readI32 bytes 0 = Except.ok w) (hh : readI32 bytes 4 = Except.ok h)
    (hneg : w * h < 0) :
    Maze.Load bytes = Except.error "RangeError: invalid typed array length" := by
  have hs : ∃ s, readI32 bytes 8 = Except.ok s := by
    have h12 : 8 + 4 ≤ bytes.length := by omega
    refine ⟨toSigned32 (bytes.getD 8 0 + 256 * bytes.getD 9 0 +
      65536 * bytes.getD 10 0 + 16777216 * bytes.getD 11 0), ?_⟩
    simp [readI32, readU32, h12, Except.map]
  obtain ⟨s, hs⟩ := hs
  unfold Maze.Load
  rw [hw]
  show (readI32 bytes 4 >>= _) = _
  rw [hh]
  show (readI32 bytes 8 >>= _) = _
  rw [hs]
  show (if w * h < 0 then _ else _) = _
  rw [if_pos hneg]
  rfl

/-- C8 counterexample: a blob with a well-formed header announcing a 2 by
1 maze and a completely missing body is accepted by the loader, which
returns a maze whose two cells are zero, instead of failing with an
InvalidInput error as the claim states. -/
theorem C8_counterexample :
    Maze.Load [2, 0, 0, 0, 1, 0, 0, 0, 0, 0, 0, 0] =
      Except.ok ⟨2, 1, [0, 0], [-1, -1], []⟩ := by rfl

/-- C8 amended: the loader has no InvalidInput error and validates
nothing itself.  A header shorter than three 32-bit words fails with the
RangeError of the underlying DataView read; a header whose width times
height is negative fails with the RangeError of the typed-array
allocation; and a body truncated at any word boundary, with any
nonnegative dimensions, is silently accepted (the unpopulated cells are
simply left with no walls). -/
theorem C8_loader_amended :
    (∀ bytes : List Nat, bytes.length < 12 →
      Maze.Load bytes = Except.error "RangeError") ∧
    (∀ (bytes : List Nat) (w h : Int), 12 ≤ bytes.length → 4 ∣ bytes.length →
      readI32 bytes 0 = Except.ok w → readI32 bytes 4 = Except.ok h →
      0 ≤ w → 0 ≤ h →
      ∃ m, Maze.Load bytes = Except.ok m ∧ m.width = w ∧ m.height = h) ∧
    (∀ (bytes : List Nat) (w h : Int), 12 ≤ bytes.length →
      readI32 bytes 0 = Except.ok w → readI32 bytes 4 = Except.ok h →
      w * h < 0 →
      Maze.Load bytes = Except.error "RangeError: invalid typed array length") :=
  ⟨load_short_header, load_ok_of_truncated_body, load_negative_size⟩

/-- C8 witness: the three amended loader behaviours at concrete blobs: an
empty blob, a truncated 2 by 1 blob, and a blob with width -1. -/
theorem C8_witness :
    ([] : List Nat).length < 12 ∧
    Maze.Load [] = Except.error "RangeError" ∧
    (∃ m, Maze.Load [2, 0, 0, 0, 1, 0, 0, 0, 0, 0, 0, 0] = Except.ok m ∧
      m.width = 2 ∧ m.height = 1) ∧
    Maze.Load [255, 255, 255, 255, 1, 0, 0, 0, 0, 0, 0, 0] =
      Except.error "RangeError: invalid typed array length" :=
  ⟨by decide, C8_loader_amended.1 [] (by decide),
   C8_loader_amended.2.1 [2, 0, 0, 0, 1, 0, 0, 0, 0, 0, 0, 0] 2 1
     (by decide) (by decide) (by rfl) (by rfl) (by decide) (by decide),
   C8_loader_amended.2.2 [255, 255, 255, 255, 1, 0, 0, 0, 0, 0, 0, 0] (-1) 1
     (by decide) (by rfl) (by rfl) (by decide)⟩

/-! ## Branches -/

structure Branches where
  directions : List Direction
  count : Int
  index : Nat
  deriving DecidableEq, Repr

/-- The Branches constructor: the four cardinal directions in fixed slot
order N, E, S, W, each slot Uninitialized when not walkable; count is
the number of walkable ones; the cursor starts at threadID mod 4. -/
def Branches.init (m : Maze) (pos : Position) (threadID : Nat) : Branches :=
  { directions := dirs4.map (fun d =>
      if m.canMove pos d then d else Direction.Uninitialized),
    count := ((dirs4.filter (fun d => m.canMove pos d)).length : Int),
    index := threadID &&& 3 }

def Branches.remove (b : Branches) (d : Direction) : Branches :=
  match b.directions.findIdx? (fun x => x == d) with
  | some i => { b with directions := b.directions.set i Direction.Uninitialized
                       count := b.count - 1 }
  | none => b

def Branches.size (b : Branches) : Int := b.count

/-- The loop body of getNextThreads, one recursive step per cursor
advance, with the remaining pass count as first argument; after the last
pass the recorded fallback, if any, is adopted. -/
def gntGo (atPos : Position) : Nat → Branches → Maze → Option Nat →
    Direction × Branches × Maze
  | 0, b, m, fb =>
    match fb with
    | some fi => (b.directions.getD fi Direction.Uninitialized,
                  { b with index := fi }, m)
    | none => (Direction.Uninitialized, b, m)
  | i + 1, b, m, fb =>
    let idx := (b.index + 1) &&& 3
    let b := { b with index := idx }
    let d := b.directions.getD idx Direction.Uninitialized
    if d = Direction.Uninitialized then gntGo atPos i b m fb
    else if m.checkBranchDead atPos d then
      let b := { b with directions := b.directions.set idx Direction.Uninitialized
                        count := b.count - 1 }
      if b.count = 0 then (Direction.Uninitialized, b, m)
      else gntGo atPos i b m fb
    else
      let fb := if fb = none then some idx else fb
      if m.checkBranchOccupied atPos d then gntGo atPos i b m fb
      else (d, b, m.setBranchOccupied atPos d)

def Branches.getNextThreads (b : Branches) (atPos : Position) (m : Maze) :
    Direction × Branches × Maze :=
  if b.count = 0 then (Direction.Uninitialized, b, m)
  else gntGo atPos 4 b m none

def Branches.popCurrThreads (b : Branches) (atPos : Position) (m : Maze) :
    Direction × Branches × Maze :=
  let d := b.directions.getD b.index Direction.Uninitialized
  if d ≠ Direction.Uninitialized then
    (d, { b with directions := b.directions.set b.index Direction.Uninitialized
                 count := b.count - 1 },
     m.setBranchDeadFromOrigin atPos d)
  else (d, b, m)

def gnGo : Nat → Branches → Direction × Branches
  | 0, b => (Direction.Uninitialized, b)
  | i + 1, b =>
    let idx := (b.index + 1) &&& 3
    let b := { b with index := idx }
    match b.directions.getD idx Direction.Uninitialized with
    | Direction.Uninitialized => gnGo i b
    | d => (d, b)

def Branches.getNext (b : Branches) : Direction × Branches :=
  if b.count = 0 then (Direction.Uninitialized, b) else gnGo 4 b

structure Junction where
  atPos : Position
  came_from : Direction
  branches : Branches
  isOverlap : Bool := false
  deriving DecidableEq, Repr

/-! ## C7: specification-side description of getNextThreads -/

/-- The list of cursor positions visited by n cursor advances with wrap,
starting after index. -/
def scanSlots (index : Nat) : Nat → List Nat
  | 0 => []
  | n + 1 => ((index + 1) &&& 3) :: scanSlots ((index + 1) &&& 3) n

/-- Transcription of the claim sentences: process the scanned slots in
cursor order; an empty (Uninitialized) slot is not a branch and is
passed over; a scanned slot whose DEAD bit is set on the cell is cleared
and the count decremented, returning Uninitialized if the count reaches
0; the first scanned non-dead slot is recorded as fallback; the first
scanned non-dead slot whose OCCUPIED bit is clear has that OCCUPIED bit
set and its direction returned with the cursor on that slot; when the
scan ends, a recorded fallback has the cursor reset to it and its
direction returned without setting OCCUPIED, and otherwise Uninitialized
is returned. -/
def gntSpec (atPos : Position) : List Nat → Branches → Maze → Option Nat →
    Direction × Branches × Maze
  | [], b, m, fb =>
    match fb with
    | some fi => (b.directions.getD fi Direction.Uninitialized,
                  { b with index := fi }, m)
    | none => (Direction.Uninitialized, b, m)
  | i :: rest, b, m, fb =>
    let b := { b with index := i }
    let d := b.directions.getD i Direction.Uninitialized
    if d = Direction.Uninitialized then gntSpec atPos rest b m fb
    else if m.checkBranchDead atPos d then
      let b := { b with directions := b.directions.set i Direction.Uninitialized
                        count := b.count - 1 }
      if b.count = 0 then (Direction.Uninitialized, b, m)
      else gntSpec atPos rest b m fb
    else
      let fb := if fb = none then some i else fb
      if m.checkBranchOccupied atPos d then gntSpec atPos rest b m fb
      else (d, b, m.setBranchOccupied atPos d)

def getNextThreadsSpec (b : Branches) (atPos : Position) (m : Maze) :
    Direction × Branches × Maze :=
  gntSpec atPos (scanSlots b.index 4) b m none

theorem gntGo_eq_spec (atPos : Position) :
    ∀ (n : Nat) (b : Branches) (m : Maze) (fb : Option Nat),
    gntGo atPos n b m fb = gntSpec atPos (scanSlots b.index n) b m fb := by
  intro n
  induction n with
  | zero => intro b m fb; cases fb <;> rfl
  | succ k ih =>
    intro b m fb
    rw [scanSlots]
    simp only [gntGo, gntSpec]
    split
    · exact ih _ _ _
    · split
      · split
        · rfl
        · exact ih _ _ _
      · split
        · exact ih _ _ _
        · rfl

theorem getD_all_unint (l : List Direction)
    (h : ∀ x ∈ l, x = Direction.Uninitialized) (i : Nat) :
    l.getD i Direction.Uninitialized = Direction.Uninitialized := by
  by_cases hi : i < l.length
  · rw [List.getD_eq_getElem l _ hi]
    exact h _ (List.getElem_mem hi)
  · rw [List.getD_eq_default]
    omega

theorem gntSpec_skip_all (atPos : Position) (m : Maze)
    (ds : List Direction) (cnt : Int)
    (h : ∀ x ∈ ds, x = Direction.Uninitialized) :
    ∀ (slots : List Nat) (i : Nat),
    gntSpec atPos slots ⟨ds, cnt, i⟩ m none =
      (Direction.Uninitialized, ⟨ds, cnt, slots.getLastD i⟩, m) := by
  intro slots
  induction slots with
  | nil => intro i; rfl
  | cons j rest ih =>
    intro i
    simp only [gntSpec, getD_all_unint ds h j, reduceIte, List.getLastD_cons]
    exact ih j

/-- C7: getNextThreads agrees with the claim-worded description gntSpec
on every well-formed Branches value (count equal to the number of
non-empty slots, cursor below 4), for every cell word state: up to 4
cursor advances, dead slots cleared with count decrement and an early
Uninitialized exit at count 0, the first non-dead slot recorded as a
fallback, the first non-dead unoccupied slot claimed by setting its
OCCUPIED bit and returned, the fallback returned without claiming
otherwise, and Uninitialized when nothing was scanned. -/
theorem C7_getNextThreads_matches_spec (b : Branches) (atPos : Position) (m : Maze)
    (hcount : b.count =
      ((b.directions.filter (fun x => x ≠ Direction.Uninitialized)).length : Int))
    (hidx : b.index < 4) :
    b.getNextThreads atPos m = getNextThreadsSpec b atPos m := by
  obtain ⟨ds, cnt, idx⟩ := b
  simp only [Branches.getNextThreads, getNextThreadsSpec] at *
  by_cases hz : cnt = 0
  · rw [if_pos hz]
    have hlen : (ds.filter (fun x => x ≠ Direction.Uninitialized)).length = 0 := by
      omega
    have hall : ∀ x ∈ ds, x = Direction.Uninitialized := by
      intro x hx
      by_contra hne
      have hmem : x ∈ ds.filter (fun x => x ≠ Direction.Uninitialized) :=
        List.mem_filter.mpr ⟨hx, by simpa using hne⟩
      rw [List.length_eq_zero] at hlen
      rw [hlen] at hmem
      simp at hmem
    rw [gntSpec_skip_all atPos m ds cnt hall]
    have hlast : (scanSlots idx 4).getLastD idx = idx := by
      interval_cases idx <;> rfl
    rw [hlast]
  · rw [if_neg hz]
    exact gntGo_eq_spec atPos 4 ⟨ds, cnt, idx⟩ m none

/-- C7 witness: the equivalence applied to a concrete well-formed
Branches value at a concrete cell state. -/
theorem C7_witness :
    ((Branches.mk [Direction.North, Direction.Uninitialized, Direction.South,
        Direction.West] 3 0).count =
      (((Branches.mk [Direction.North, Direction.Uninitialized, Direction.South,
        Direction.West] 3 0).directions.filter
          (fun x => x ≠ Direction.Uninitialized)).length : Int)) ∧
    ((Branches.mk [Direction.North, Direction.Uninitialized, Direction.South,
        Direction.West] 3 0).getNextThreads ⟨0, 0⟩
        (Maze.mk 1 1 [0x1000] [-1] []) =
      getNextThreadsSpec (Branches.mk [Direction.North, Direction.Uninitialized,
        Direction.South, Direction.West] 3 0) ⟨0, 0⟩
        (Maze.mk 1 1 [0x1000] [-1] [])) :=
  ⟨by decide,
   C7_getNextThreads_matches_spec _ _ _ (by decide) (by decide)⟩

/-! ## MT_M2: DFSThread -/

inductive MTRes where
  | DEAD
  | FOUND_TARGET
  | CONTINUE
  | CRASH
  deriving DecidableEq, Repr

structure DFSThread where
  id : Nat
  is_tb : Bool
  stack : List Junction
  finished : Bool
  state : Nat
  target_pos : Option Position
  corridor_dir : Direction
  backtrack_target : Option Position
  deriving DecidableEq, Repr

/-- The DFSThread constructor; target_pos and backtrack_target start as
null (none), the stack holds one junction at the spawn cell.  The stack
is a JavaScript array: push appends at the end, the top is the last
element. -/
def DFSThread.init (threadID : Nat) (is_tb : Bool) (start_pos : Position)
    (m : Maze) : DFSThread :=
  { id := threadID
    is_tb := is_tb
    stack := [Junction.mk start_pos Direction.Uninitialized
      (Branches.init m start_pos threadID) false]
    finished := false
    state := 0
    target_pos := none
    corridor_dir := Direction.Uninitialized
    backtrack_target := none }

/-- One step of a walker; CRASH models the JavaScript TypeError of a
dereference of a null target_pos or backtrack_target (never reached from
a real solver state). -/
def DFSThread.step (t : DFSThread) (m : Maze) : MTRes × DFSThread × Maze :=
  if t.finished ∨ t.stack = [] then (MTRes.DEAD, t, m)
  else if t.state = 0 then
    match t.stack.getLast? with
    | none => (MTRes.DEAD, t, m)
    | some junc =>
      let collision : Bool :=
        if t.is_tb then (junc.atPos == m.getEnd) || m.isVisitedByTeam junc.atPos false
        else m.isVisitedByTeam junc.atPos true
      if collision then (MTRes.FOUND_TARGET, t, m)
      else
        let m := m.markVisitedTeam junc.atPos t.is_tb
        let m := m.setThreadOwner junc.atPos t.id
        let res :=
          if junc.branches.size > 0 then junc.branches.getNextThreads junc.atPos m
          else (Direction.Uninitialized, junc.branches, m)
        let d := res.1
        let junc2 := { junc with branches := res.2.1 }
        let m := res.2.2
        if d = Direction.Uninitialized then
          let stack := t.stack.dropLast
          let m := if m.isJunction junc2.atPos then m.markDeadJunction junc2.atPos
                   else m.unmarkVisitedTeam junc2.atPos
          match stack.getLast? with
          | some parent =>
            let pres := parent.branches.popCurrThreads parent.atPos m
            let parent2 := { parent with branches := pres.2.1 }
            let stack := stack.dropLast ++ [parent2]
            (MTRes.CONTINUE,
             { t with stack := stack
                      state := 2
                      backtrack_target := some parent.atPos
                      target_pos := some junc2.atPos }, pres.2.2)
          | none => (MTRes.DEAD, { t with stack := stack }, m)
        else
          (MTRes.CONTINUE,
           { t with stack := t.stack.dropLast ++ [junc2]
                    state := 1
                    corridor_dir := d
                    target_pos := some junc2.atPos }, m)
  else if t.state = 1 then
    match t.target_pos with
    | none => (MTRes.CRASH, t, m)
    | some tp =>
      let next_p := tp.move t.corridor_dir
      let parent_rev := reverseDir t.corridor_dir
      let collision_found : Bool :=
        if t.is_tb then (next_p == m.getEnd) || m.isVisitedByTeam next_p false
        else m.isVisitedByTeam next_p true
      if collision_found then
        (MTRes.FOUND_TARGET,
         { t with target_pos := some next_p
                  stack := t.stack ++
                    [Junction.mk next_p parent_rev (Branches.init m next_p t.id) false] },
         m)
      else
        let m := m.markVisitedTeam next_p t.is_tb
        let m := m.setThreadOwner next_p t.id
        let m := m.setDirectionRouteBT next_p parent_rev
        let branches := (Branches.init m next_p t.id).remove parent_rev
        if branches.size ≠ 1 then
          (MTRes.CONTINUE,
           { t with target_pos := some next_p
                    state := 0
                    stack := t.stack ++ [Junction.mk next_p parent_rev branches false] },
           m)
        else
          (MTRes.CONTINUE,
           { t with target_pos := some next_p
                    corridor_dir := (branches.getNext).1 }, m)
  else if t.state = 2 then
    match t.target_pos with
    | none => (MTRes.CRASH, t, m)
    | some tp =>
      let m := if ¬ m.isJunction tp then m.unmarkVisitedTeam tp else m
      match t.backtrack_target with
      | none => (MTRes.CRASH, t, m)
      | some bt =>
        if tp = bt then (MTRes.CONTINUE, { t with state := 0 }, m)
        else
          let parent_dir := m.getDirectionRouteBT tp
          if parent_dir = Direction.Uninitialized then
            (MTRes.CONTINUE, { t with state := 0 }, m)
          else
            (MTRes.CONTINUE, { t with target_pos := some (tp.move parent_dir) }, m)
  else (MTRes.DEAD, t, m)

/-! ## C4 -/

/-- C4: a walker in CORRIDOR state (state 1) that detects a collision at
next = target_pos.move(corridor_dir) - for a TB walker, next equals End
or has VISITED_BT; for a BT walker, next has VISITED_TB - returns
FOUND_TARGET, pushes a dummy junction for next carrying the reversed
corridor direction, sets target_pos to next, and leaves the team-visit
bits, the thread-ownership entry and the parent bits of next unchanged
(the maze is not written at all on this path). -/
theorem C4_corridor_collision_frame (t : DFSThread) (m : Maze) (tp : Position)
    (hfin : t.finished = false) (hstk : t.stack ≠ [])
    (hstate : t.state = 1) (htp : t.target_pos = some tp)
    (hcol :
      (t.is_tb = true ∧ (tp.move t.corridor_dir = m.getEnd ∨
        m.isVisitedByTeam (tp.move t.corridor_dir) false = true)) ∨
      (t.is_tb = false ∧ m.isVisitedByTeam (tp.move t.corridor_dir) true = true)) :
    (t.step m).1 = MTRes.FOUND_TARGET ∧
    (t.step m).2.1.stack = t.stack ++
      [Junction.mk (tp.move t.corridor_dir) (reverseDir t.corridor_dir)
        (Branches.init m (tp.move t.corridor_dir) t.id) false] ∧
    (t.step m).2.1.target_pos = some (tp.move t.corridor_dir) ∧
    (t.step m).2.2.getCell (tp.move t.corridor_dir) &&&
        (InternalBit.VISITED_TB ||| InternalBit.VISITED_BT) =
      m.getCell (tp.move t.corridor_dir) &&&
        (InternalBit.VISITED_TB ||| InternalBit.VISITED_BT) ∧
    (t.step m).2.2.getThreadOwner (tp.move t.corridor_dir) =
      m.getThreadOwner (tp.move t.corridor_dir) ∧
    (t.step m).2.2.getCell (tp.move t.corridor_dir) &&& InternalBit.PARENT_MASK =
      m.getCell (tp.move t.corridor_dir) &&& InternalBit.PARENT_MASK := by
  have hcolb :
      (if t.is_tb then (tp.move t.corridor_dir == m.getEnd) ||
          m.isVisitedByTeam (tp.move t.corridor_dir) false
        else m.isVisitedByTeam (tp.move t.corridor_dir) true) = true := by
    rcases hcol with ⟨htb, h⟩ | ⟨htb, h⟩ <;> rw [htb]
    · simp only [if_true]
      rcases h with h | h
      · simp [h]
      · simp [h]
    · simpa using h
  simp only [DFSThread.step, hfin, hstk, hstate, htp, hcolb]
  simp

/-- C4 witness: the corridor collision frame property at a concrete
walker state colliding with a VISITED_BT cell. -/
theorem C4_witness :
    ((DFSThread.mk 0 true
        [Junction.mk ⟨0, 0⟩ Direction.Uninitialized (Branches.mk
          [Direction.Uninitialized, Direction.Uninitialized, Direction.South,
           Direction.Uninitialized] 1 0) false]
        false 1 (some ⟨0, 0⟩) Direction.South none).step
      (Maze.mk 1 3 [0, 0x200000, 0] [-1, -1, -1] [(1, 3)])).1 =
      MTRes.FOUND_TARGET ∧
    ((DFSThread.mk 0 true
        [Junction.mk ⟨0, 0⟩ Direction.Uninitialized (Branches.mk
          [Direction.Uninitialized, Direction.Uninitialized, Direction.South,
           Direction.Uninitialized] 1 0) false]
        false 1 (some ⟨0, 0⟩) Direction.South none).step
      (Maze.mk 1 3 [0, 0x200000, 0] [-1, -1, -1] [(1, 3)])).2.2.getThreadOwner
        ((⟨0, 0⟩ : Position).move Direction.South) =
      (Maze.mk 1 3 [0, 0x200000, 0] [-1, -1, -1] [(1, 3)]).getThreadOwner
        ((⟨0, 0⟩ : Position).move Direction.South) := by
  have h := C4_corridor_collision_frame
    (DFSThread.mk 0 true
      [Junction.mk ⟨0, 0⟩ Direction.Uninitialized (Branches.mk
        [Direction.Uninitialized, Direction.Uninitialized, Direction.South,
         Direction.Uninitialized] 1 0) false]
      false 1 (some ⟨0, 0⟩) Direction.South none)
    (Maze.mk 1 3 [0, 0x200000, 0] [-1, -1, -1] [(1, 3)]) ⟨0, 0⟩
    rfl (by simp) rfl rfl (Or.inl ⟨rfl, Or.inr (by decide)⟩)
  exact ⟨h.1, h.2.2.2.2.1⟩

/-! ## BFS and DFS solvers -/

inductive Tok where
  | SEARCHING
  | BACKTRACKING
  | FINISHED
  | NO_SOLUTION
  deriving DecidableEq, Repr

/-- The explicit parent computation of the source (the reverse of the
step direction for the four real directions). -/
def parentOf (d : Direction) : Direction :=
  if d = Direction.North then Direction.South
  else if d = Direction.South then Direction.North
  else if d = Direction.East then Direction.West
  else if d = Direction.West then Direction.East
  else Direction.Uninitialized

/-- The neighbour expansion of one dequeued BFS cell over the given
direction list (the source uses S, W, E, N). -/
def bfsExpand (cur : Position) : List Direction → Maze → List Position → Int →
    Maze × List Position × Int
  | [], m, q, counter => (m, q, counter)
  | d :: ds, m, q, counter =>
    if m.canMove cur d then
      let nextPos := cur.move d
      if m.getVisitOrder nextPos = some (-1) then
        let m := m.setDirectionRouteBT nextPos (parentOf d)
        let m := m.setVisitOrder nextPos counter
        bfsExpand cur ds m (q ++ [nextPos]) (counter + 1)
      else bfsExpand cur ds m q counter
    else bfsExpand cur ds m q counter

/-- The BFS search loop; one SEARCHING token per iteration; the last
component is none when the fuel ran out mid-loop and some found
otherwise. -/
def bfsLoop (endPos : Position) : Nat → Maze → List Position → Int →
    List Tok × Maze × Option Bool
  | 0, m, _, _ => ([], m, none)
  | fuel + 1, m, q, counter =>
    match q with
    | [] => ([], m, some false)
    | cur :: q2 =>
      if cur = endPos then ([Tok.SEARCHING], m, some true)
      else
        let e := bfsExpand cur
          [Direction.South, Direction.West, Direction.East, Direction.North]
          m q2 counter
        let res := bfsLoop endPos fuel e.1 e.2.1 e.2.2
        (Tok.SEARCHING :: res.1, res.2)

/-- The path reconstruction loop shared by BFS and DFS: mark the current
cell, stop at the start or at a cell with no parent bits; the Bool is
false only when the fuel ran out. -/
def parentBacktrack (startPos : Position) : Nat → Maze → Position →
    List Tok × Maze × Bool
  | 0, m, _ => ([], m, false)
  | fuel + 1, m, curr =>
    let m := m.markPath curr
    if curr = startPos then ([Tok.BACKTRACKING], m, true)
    else
      let parent_dir := m.getDirectionRouteBT curr
      if parent_dir = Direction.Uninitialized then ([Tok.BACKTRACKING], m, true)
      else
        let res := parentBacktrack startPos fuel m (curr.move parent_dir)
        (Tok.BACKTRACKING :: res.1, res.2)

def BFSSolver.solve_step_by_step (m : Maze) (fuel : Nat) : List Tok × Maze :=
  let start := m.getStart
  let endPos := m.getEnd
  let m := m.setVisitOrder start 0
  let m := m.setDirectionRouteBT start Direction.Uninitialized
  let r := bfsLoop endPos fuel m [start] 1
  match r.2.2 with
  | some true =>
    let b := parentBacktrack start fuel r.2.1 endPos
    if b.2.2 then (r.1 ++ b.1 ++ [Tok.FINISHED], b.2.1)
    else (r.1 ++ b.1, b.2.1)
  | some false => (r.1 ++ [Tok.NO_SOLUTION], r.2.1)
  | none => (r.1, r.2.1)

/-- Find the first direction in the list that is walkable and leads to an
unvisited cell, as the DFS advance loop does. -/
def dfsFindMove (m : Maze) (curr : Position) : List Direction → Option Direction
  | [] => none
  | d :: ds =>
    if m.canMove curr d && (m.getVisitOrder (curr.move d) == some (-1)) then some d
    else dfsFindMove m curr ds

/-- The DFS search loop.  When no advance is possible the has_opts rescan
of the source repeats exactly the advance test on the same cell with the
same direction order, so it is false on this path and the top is always
popped. -/
def dfsLoop (endPos : Position) : Nat → Maze → List (Position × Direction) → Int →
    List Tok × Maze × Option Bool
  | 0, m, _, _ => ([], m, none)
  | fuel + 1, m, stack, counter =>
    match stack.getLast? with
    | none => ([], m, some false)
    | some top =>
      if top.1 = endPos then ([Tok.SEARCHING], m, some true)
      else
        match dfsFindMove m top.1
          [Direction.South, Direction.East, Direction.West, Direction.North] with
        | some d =>
          let nextPos := top.1.move d
          let m := m.setVisitOrder nextPos counter
          let m := m.markOnStack nextPos true
          let m := m.setDirectionRouteBT nextPos (parentOf d)
          let res := dfsLoop endPos fuel m (stack ++ [(nextPos, parentOf d)]) (counter + 1)
          (Tok.SEARCHING :: res.1, res.2)
        | none =>
          let m := m.markOnStack top.1 false
          let m := m.clearFlag top.1 InternalBit.VISITED_BIT
          let m := if m.isJunction top.1 then m.markDeadJunction top.1 else m
          let res := dfsLoop endPos fuel m stack.dropLast counter
          (Tok.SEARCHING :: res.1, res.2)

def DFSSolver.solve_step_by_step (m : Maze) (fuel : Nat) : List Tok × Maze :=
  let start := m.getStart
  let endPos := m.getEnd
  let m := m.setVisitOrder start 0
  let m := m.markOnStack start true
  let m := m.setDirectionRouteBT start Direction.Uninitialized
  let r := dfsLoop endPos fuel m [(start, Direction.Uninitialized)] 1
  match r.2.2 with
  | some true =>
    let b := parentBacktrack start fuel r.2.1 endPos
    if b.2.2 then (r.1 ++ b.1 ++ [Tok.FINISHED], b.2.1)
    else (r.1 ++ b.1, b.2.1)
  | some false => (r.1 ++ [Tok.NO_SOLUTION], r.2.1)
  | none => (r.1, r.2.1)

/-- The grid positions of a maze in row-major order. -/
def gridPositions (m : Maze) : List Position :=
  (List.range m.height.toNat).flatMap (fun (r : Nat) =>
    (List.range m.width.toNat).map (fun (c : Nat) => ⟨(r : Int), (c : Int)⟩))

/-- The cells currently marked ON_PATH, in row-major order. -/
def pathCells (m : Maze) : List Position :=
  (gridPositions m).filter (fun p => m.hasFlag p InternalBit.PATH_BIT)

/-! ## MT_M2: scheduler and reconstruction -/

instance : Inhabited Junction :=
  ⟨Junction.mk ⟨0, 0⟩ Direction.Uninitialized (Branches.mk [] 0 0) false⟩

structure MTRoundOut where
  m : Maze
  threads : List DFSThread
  active : Nat
  found : Bool
  cpos : Option Position
  crashed : Bool
  deriving Repr

/-- One scheduler round over the walkers in id order: DEAD marks the
walker finished, FOUND_TARGET stops the round recording collision_pos =
target_pos when the stack is non-empty, CONTINUE counts as active. -/
def mtRound : List DFSThread → Maze → Nat → Option Position → MTRoundOut
  | [], m, active, cpos => ⟨m, [], active, false, cpos, false⟩
  | t :: ts, m, active, cpos =>
    if t.finished then
      let r := mtRound ts m active cpos
      { r with threads := t :: r.threads }
    else
      let s := t.step m
      match s.1 with
      | MTRes.DEAD =>
        let r := mtRound ts s.2.2 active cpos
        { r with threads := { s.2.1 with finished := true } :: r.threads }
      | MTRes.FOUND_TARGET =>
        ⟨s.2.2, s.2.1 :: ts, active, true,
         if s.2.1.stack.length > 0 then s.2.1.target_pos else cpos, false⟩
      | MTRes.CRASH => ⟨s.2.2, s.2.1 :: ts, active, false, cpos, true⟩
      | MTRes.CONTINUE =>
        let r := mtRound ts s.2.2 (active + 1) cpos
        { r with threads := s.2.1 :: r.threads }

structure MTLoopOut where
  toks : List Tok
  m : Maze
  threads : List DFSThread
  found : Bool
  cpos : Option Position
  completed : Bool
  deriving Repr

/-- The MT_M2 search loop: one round then a SEARCHING token per pass;
exits when a target was found or every walker is finished. -/
def mtLoop : Nat → Maze → List DFSThread → Option Position → MTLoopOut
  | 0, m, ts, cpos => ⟨[], m, ts, false, cpos, false⟩
  | fuel + 1, m, ts, cpos =>
    let r := mtRound ts m 0 cpos
    if r.crashed then ⟨[], r.m, r.threads, false, r.cpos, false⟩
    else if r.found then ⟨[Tok.SEARCHING], r.m, r.threads, true, r.cpos, true⟩
    else if r.active = 0 then ⟨[Tok.SEARCHING], r.m, r.threads, false, r.cpos, true⟩
    else
      let res := mtLoop fuel r.m r.threads r.cpos
      { res with toks := Tok.SEARCHING :: res.toks }

/-- Reconstruction part 1 entry: take the collision cell itself when it
is VISITED_TB, else the first of its four neighbours that is (the scan
does not consult canMove). -/
def mtFindTB (m : Maze) (cpos : Position) : Position :=
  if m.isVisitedByTeam cpos true then cpos
  else
    match dirs4.find? (fun d => m.isVisitedByTeam (cpos.move d) true) with
    | some d => cpos.move d
    | none => cpos

/-- Reconstruction part 1: collect the parent chain from the collision
side cell back towards Start (Start itself is appended by the caller);
the Bool is false only when the fuel ran out. -/
def mtBuildPathTB (startPos : Position) : Nat → Maze → Position → List Position →
    List Position × Bool
  | 0, _, _, acc => (acc, false)
  | fuel + 1, m, temp, acc =>
    if temp = startPos then (acc, true)
    else
      let acc := acc ++ [temp]
      let parent_dir := m.getDirectionRouteBT temp
      if parent_dir = Direction.Uninitialized then (acc, true)
      else mtBuildPathTB startPos fuel m (temp.move parent_dir) acc

/-- Mark each listed cell ON_PATH in order, one BACKTRACKING token per
cell. -/
def markEach : List Position → Maze → List Tok × Maze
  | [], m => ([], m)
  | p :: ps, m =>
    let m := m.markPath p
    let res := markEach ps m
    (Tok.BACKTRACKING :: res.1, res.2)

/-- Reconstruction part 2 thread lookup: scan the collision cell and its
four neighbours for a VISITED_BT cell whose recorded owner id is at
least 3; that owner indexes the walker list. -/
def mtFindBT (m : Maze) (threads : List DFSThread) (cpos : Position) :
    Option DFSThread :=
  let rec go : List Position → Option DFSThread
    | [] => none
    | pos :: rest =>
      if m.isVisitedByTeam pos false then
        let tid := m.getThreadOwner pos
        if 3 ≤ tid then threads.get? tid.toNat
        else go rest
      else go rest
  go (cpos :: dirs4.map (fun d => cpos.move d))

/-- Locate the collision cell in the walker stack: prefer the top, else
the first match scanning downward, else stay at the top. -/
def mtSyncIdx (stack : List Junction) (cpos : Position) : Nat :=
  match stack.getLast? with
  | none => 0
  | some top =>
    if top.atPos = cpos then stack.length - 1
    else
      match stack.reverse.findIdx? (fun j => j.atPos == cpos) with
      | some k => stack.length - 1 - k
      | none => stack.length - 1

/-- Reconstruction part 2 corridor walk towards the goal junction: per
pass mark the cell, prefer a direct step into the goal (no wall check),
else a walkable neighbour owned by this walker with VISITED_BT, else any
walkable VISITED_BT neighbour; on failure log and break.  Result status:
some true reached the goal, some false broke with the error log, none
ran out of fuel. -/
def mtCorridor (btid : Nat) (goal : Position) : Nat → Maze → Position → Direction →
    List Tok × Maze × Position × Option Bool
  | 0, m, curr, _ => ([], m, curr, none)
  | fuel + 1, m, curr, jump_dir =>
    if curr = goal then ([], m, curr, some true)
    else
      let m := m.markPath curr
      let back_dir := reverseDir jump_dir
      match dirs4.find? (fun d => curr.move d == goal) with
      | some d =>
        let res := mtCorridor btid goal fuel m (curr.move d) d
        (Tok.BACKTRACKING :: res.1, res.2)
      | none =>
        match dirs4.find? (fun d => d != back_dir && m.canMove curr d &&
            (m.getThreadOwner (curr.move d) == (btid : Int)) &&
            m.isVisitedByTeam (curr.move d) false) with
        | some d =>
          let res := mtCorridor btid goal fuel m (curr.move d) d
          (Tok.BACKTRACKING :: res.1, res.2)
        | none =>
          match dirs4.find? (fun d => d != back_dir && m.canMove curr d &&
              m.isVisitedByTeam (curr.move d) false) with
          | some d =>
            let res := mtCorridor btid goal fuel m (curr.move d) d
            (Tok.BACKTRACKING :: res.1, res.2)
          | none => ([Tok.BACKTRACKING], m, curr, some false)

/-- Reconstruction part 2 segment walk, one recursive step per stack
entry from the synchronized index down to the root. -/
def mtSegments (stack : List Junction) (btid : Nat) (fuelC : Nat) :
    Nat → Maze → Position → List Tok × Maze × Option Bool
  | 0, m, _ => ([], m, some true)
  | k + 1, m, curr =>
    let node_curr := stack.getD (k + 1) default
    let node_goal := stack.getD k default
    let m := m.markPath curr
    let jump_dir := node_curr.came_from
    let curr := curr.move jump_dir
    let res := mtCorridor btid node_goal.atPos fuelC m curr jump_dir
    match res.2.2.2 with
    | none => (Tok.BACKTRACKING :: res.1, res.2.1, none)
    | some _ =>
      let res2 := mtSegments stack btid fuelC k res.2.1 res.2.2.1
      (Tok.BACKTRACKING :: res.1 ++ res2.1, res2.2)

def MTSolver.solve_step_by_step (m : Maze) (fuel : Nat) : List Tok × Maze :=
  let start := m.getStart
  let endPos := m.getEnd
  let threads :=
    [DFSThread.init 0 true start m, DFSThread.init 1 true start m,
     DFSThread.init 2 true start m, DFSThread.init 3 false endPos m,
     DFSThread.init 4 false endPos m, DFSThread.init 5 false endPos m]
  let m := m.markVisitedTeam start true
  let m := m.setThreadOwner start 0
  let m := m.markVisitedTeam endPos false
  let m := m.setThreadOwner endPos 3
  let r := mtLoop fuel m threads none
  if r.completed = false then (r.toks, r.m)
  else
    match r.found, r.cpos with
    | true, some cpos =>
      let curr_tb := mtFindTB r.m cpos
      let pb := mtBuildPathTB start fuel r.m curr_tb []
      if pb.2 = false then (r.toks, r.m)
      else
        let path_tb := pb.1 ++ [start]
        let mk1 := markEach path_tb.reverse r.m
        match mtFindBT mk1.2 r.threads cpos with
        | some bt =>
          if bt.stack.length > 0 then
            let k := mtSyncIdx bt.stack cpos
            let curr := (bt.stack.getD k default).atPos
            let seg := mtSegments bt.stack bt.id fuel k mk1.2 curr
            match seg.2.2 with
            | none => (r.toks ++ mk1.1 ++ seg.1, seg.2.1)
            | some _ =>
              (r.toks ++ mk1.1 ++ seg.1 ++ [Tok.FINISHED], seg.2.1.markPath endPos)
          else (r.toks ++ mk1.1 ++ [Tok.FINISHED], mk1.2)
        | none => (r.toks ++ mk1.1 ++ [Tok.FINISHED], mk1.2)
    | _, _ => (r.toks ++ [Tok.NO_SOLUTION], r.m)

/-! ## MT_M1: pruners, walker, backward BFS -/

inductive PrunePhase where
  | SCAN
  | PRUNE
  deriving DecidableEq, Repr

structure PruneThread where
  id : Nat
  row_start : Int
  row_end : Int
  stack : List Position
  phase : PrunePhase
  iter_row : Int
  iter_col : Int
  finished : Bool
  deriving DecidableEq, Repr

/-- The SCAN phase k-loop of a pruner (one row worth of cells per step);
the phase switch returns from the whole step at once.  The pruner stack
is a JavaScript array used LIFO; its top is the list head here. -/
def pruneScanLoop (m : Maze) : Nat → PruneThread → PruneThread
  | 0, p => p
  | k + 1, p =>
    let p := if m.width ≤ p.iter_col then
        { p with iter_col := 0, iter_row := p.iter_row + 1 } else p
    if p.row_end ≤ p.iter_row then { p with phase := PrunePhase.PRUNE }
    else
      let pos : Position := ⟨p.iter_row, p.iter_col⟩
      if pos = m.getStart ∨ pos = m.getEnd then
        pruneScanLoop m k { p with iter_col := p.iter_col + 1 }
      else
        let moves := m.getAvailableMovesNoPruned pos
        let p := if moves.length ≤ 1 then { p with stack := pos :: p.stack } else p
        pruneScanLoop m k { p with iter_col := p.iter_col + 1 }

/-- The PRUNE phase of a pruner: drain the inbound queue, then process at
most one stack cell (processed_count reaches 1 after a single pop, even
for an already-pruned cell). -/
def PruneThread.pruneStep (p : PruneThread) (m : Maze) (qs : List (List Position)) :
    PruneThread × Maze × List (List Position) :=
  let p := { p with stack := (qs.getD p.id []).reverse ++ p.stack }
  let qs := qs.set p.id []
  match p.stack with
  | [] => (p, m, qs)
  | pos :: rest =>
    let p := { p with stack := rest }
    if m.isPruned pos then (p, m, qs)
    else
      let m := m.markPruned pos
      let m := m.setThreadOwner pos p.id
      let moves := m.getAvailableMovesNoPruned pos
      if moves.length = 1 then
        let d := moves.getD 0 Direction.Uninitialized
        let neighbor := pos.move d
        if neighbor = m.getStart ∨ neighbor = m.getEnd then (p, m, qs)
        else
          let n_moves := m.getAvailableMovesNoPruned neighbor
          if n_moves.length ≤ 1 then
            if neighbor.row < p.row_start then
              (p, m, if 0 < p.id then
                qs.set (p.id - 1) (qs.getD (p.id - 1) [] ++ [neighbor]) else qs)
            else if p.row_end ≤ neighbor.row then
              (p, m, if p.id < 3 then
                qs.set (p.id + 1) (qs.getD (p.id + 1) [] ++ [neighbor]) else qs)
            else ({ p with stack := neighbor :: p.stack }, m, qs)
          else (p, m, qs)
      else (p, m, qs)

def PruneThread.step (p : PruneThread) (m : Maze) (qs : List (List Position)) :
    PruneThread × Maze × List (List Position) :=
  if p.finished then (p, m, qs)
  else
    match p.phase with
    | PrunePhase.SCAN => (pruneScanLoop m m.width.toNat p, m, qs)
    | PrunePhase.PRUNE => p.pruneStep m qs

structure WalkThreadTB where
  curr : Position
  came_from : Direction
  finished : Bool
  found : Bool
  overlap : Option Position
  deriving DecidableEq, Repr

def WalkThreadTB.step (w : WalkThreadTB) (m : Maze) (solve_list : List Direction)
    (first_exit : Bool) : WalkThreadTB × Maze × List Direction × Bool :=
  if w.finished then (w, m, solve_list, first_exit)
  else
    let target := m.getEnd
    if m.getDirectionRouteBT w.curr ≠ Direction.Uninitialized then
      ({ w with overlap := some w.curr, finished := true }, m, solve_list, first_exit)
    else if w.curr = target then
      ({ w with found := true, finished := true }, m, solve_list, true)
    else
      let moves := m.getAvailableMovesNoPruned w.curr
      let moves := if w.came_from ≠ Direction.Uninitialized then
          moves.erase w.came_from else moves
      if moves.length = 1 then
        let go_to := moves.getD 0 Direction.Uninitialized
        let curr2 := w.curr.move go_to
        let m := m.markVisitedTeam curr2 true
        ({ w with curr := curr2, overlap := some curr2, came_from := reverseDir go_to },
         m, solve_list ++ [go_to], first_exit)
      else if 1 < moves.length then (w, m, solve_list, first_exit)
      else ({ w with finished := true }, m, solve_list, first_exit)

structure BFSThreadBT where
  q : List Position
  finished : Bool
  found : Bool
  deriving DecidableEq, Repr

/-- Neighbour expansion of the backward BFS in the fixed S, W, E, N
order: skip pruned cells, claim cells with no parent bits yet. -/
def bfsBTExpand (cur : Position) : List Direction → Maze → List Position →
    Maze × List Position
  | [], m, q => (m, q)
  | d :: ds, m, q =>
    if m.canMove cur d then
      let nextPos := cur.move d
      if m.isPruned nextPos then bfsBTExpand cur ds m q
      else if m.getDirectionRouteBT nextPos = Direction.Uninitialized then
        let m := m.setDirectionRouteBT nextPos (reverseDir d)
        let m := m.markVisitedTeam nextPos false
        bfsBTExpand cur ds m (q ++ [nextPos])
      else bfsBTExpand cur ds m q
    else bfsBTExpand cur ds m q

/-- The at-most-two pops of one backward-BFS step; the Bool reports that
the start node was dequeued. -/
def bfsBTInner (endNode : Position) : Nat → Maze → List Position →
    Maze × List Position × Bool
  | 0, m, q => (m, q, false)
  | steps + 1, m, q =>
    match q with
    | [] => (m, q, false)
    | cur :: q2 =>
      if m.isPruned cur then bfsBTInner endNode steps m q2
      else if cur = endNode then (m, q2, true)
      else
        let e := bfsBTExpand cur
          [Direction.South, Direction.West, Direction.East, Direction.North] m q2
        bfsBTInner endNode steps e.1 e.2

def BFSThreadBT.step (b : BFSThreadBT) (m : Maze) (first_exit : Bool) :
    BFSThreadBT × Maze × Bool :=
  if b.finished || first_exit then ({ b with finished := true }, m, first_exit)
  else
    let endNode := m.getStart
    let r := bfsBTInner endNode 2 m b.q
    if r.2.2 then ({ b with q := r.2.1, finished := true, found := true }, r.1, true)
    else ({ b with q := r.2.1 }, r.1, first_exit)

structure MTM1State where
  pruners : List PruneThread
  walker : WalkThreadTB
  bfs : BFSThreadBT
  solve_list : List Direction
  first_exit : Bool
  queues : List (List Position)
  deriving DecidableEq, Repr

/-- The MT_M1 constructor: four pruners over contiguous row bands (the
height remainder distributed one row each over the first bands), the
forward walker at Start and the backward BFS whose constructor writes
the parent route of End. -/
def MT_M1_Solver.init (m : Maze) : MTM1State × Maze :=
  let chunk := m.height / 4
  let remainder := m.height % 4
  let pruners := (List.range 4).map (fun (i : Nat) =>
    let row_start := (i : Int) * chunk + min (i : Int) remainder
    let row_end := ((i : Int) + 1) * chunk + min ((i : Int) + 1) remainder
    PruneThread.mk i row_start row_end [] PrunePhase.SCAN row_start 0 false)
  let walker := WalkThreadTB.mk m.getStart Direction.Uninitialized false false none
  let m2 := m.setDirectionRouteBT m.getEnd Direction.Uninitialized
  let bfs := BFSThreadBT.mk [m.getEnd] false false
  (⟨pruners, walker, bfs, [], false, [[], [], [], []]⟩, m2)

def stepPrunersGo : List PruneThread → Maze → List (List Position) →
    List PruneThread × Maze × List (List Position)
  | [], m, qs => ([], m, qs)
  | p :: ps, m, qs =>
    let r := p.step m qs
    let rest := stepPrunersGo ps r.2.1 r.2.2
    (r.1 :: rest.1, rest.2)

/-- One MT_M1 round: the four pruners in order, then the walker, then the
backward BFS. -/
def mtm1Round (st : MTM1State) (m : Maze) : MTM1State × Maze :=
  let pr := stepPrunersGo st.pruners m st.queues
  let wr := st.walker.step pr.2.1 st.solve_list st.first_exit
  let br := st.bfs.step wr.2.1 wr.2.2.2
  ({ st with pruners := pr.1
             queues := pr.2.2
             walker := wr.1
             solve_list := wr.2.2.1
             bfs := br.1
             first_exit := br.2.2 }, br.2.1)

structure MTM1LoopOut where
  toks : List Tok
  st : MTM1State
  m : Maze
  completed : Bool
  deriving Repr

/-- The MT_M1 main loop; one SEARCHING token per full round; exits when
the first-exit flag is set, both searchers are finished, or the walker
finished with a non-null overlap (the early break). -/
def mtm1Loop : Nat → MTM1State → Maze → MTM1LoopOut
  | 0, st, m => ⟨[], st, m, false⟩
  | fuel + 1, st, m =>
    if st.first_exit ∨ (st.walker.finished ∧ st.bfs.finished) then ⟨[], st, m, true⟩
    else
      let r := mtm1Round st m
      if r.1.walker.finished ∧ r.1.walker.overlap ≠ none then ⟨[], r.1, r.2, true⟩
      else
        let res := mtm1Loop fuel r.1 r.2
        { res with toks := Tok.SEARCHING :: res.toks }

/-- Replay of the walker record from Start, marking each cell. -/
def mtm1Replay : List Direction → Maze → Position → List Tok × Maze × Position
  | [], m, curr => ([], m, curr)
  | d :: ds, m, curr =>
    let m := m.markPath curr
    let res := mtm1Replay ds m (curr.move d)
    (Tok.BACKTRACKING :: res.1, res.2)

/-- Follow the backward-BFS parent hints from the replay end towards End,
marking each cell; stops quietly at a cell with no parent bits. -/
def mtm1Follow (endPos : Position) : Nat → Maze → Position → List Tok × Maze × Bool
  | 0, m, _ => ([], m, false)
  | fuel + 1, m, curr =>
    if curr = endPos then ([], m, true)
    else
      let m := m.markPath curr
      let d := m.getDirectionRouteBT curr
      if d = Direction.Uninitialized then ([], m, true)
      else
        let res := mtm1Follow endPos fuel m (curr.move d)
        (Tok.BACKTRACKING :: res.1, res.2)

def MT_M1_Solver.solve_step_by_step (m : Maze) (fuel : Nat) : List Tok × Maze :=
  let initr := MT_M1_Solver.init m
  let r := mtm1Loop fuel initr.1 initr.2
  if r.completed = false then (r.toks, r.m)
  else
    let rep := mtm1Replay r.st.solve_list r.m r.m.getStart
    let fol := mtm1Follow r.m.getEnd fuel rep.2.1 rep.2.2
    if fol.2.2 = false then (r.toks ++ rep.1 ++ fol.1, fol.2.1)
    else
      (r.toks ++ rep.1 ++ fol.1 ++ [Tok.FINISHED], fol.2.1.markPath r.m.getEnd)

/-! ## Path-chain formalization (claim C1) -/

/-- Consecutive cells of the list are joined by a move along an open edge
(canMove true at the earlier cell). -/
def ChainLinked (m : Maze) : List Position → Prop
  | [] => True
  | [_] => True
  | p :: q :: rest =>
    (∃ d, d ∈ dirs4 ∧ q = p.move d ∧ m.canMove p d = true) ∧
      ChainLinked m (q :: rest)

/-- The C1 claim at a final maze state: the cells with ON_PATH set form a
connected chain from Start to End in which every consecutive pair is
joined by an open edge. -/
def FormsPathChain (m : Maze) : Prop :=
  ∃ l : List Position, l.head? = some m.getStart ∧ l.getLast? = some m.getEnd ∧
    ChainLinked m l ∧ (∀ p, p ∈ l ↔ m.hasFlag p InternalBit.PATH_BIT = true)

theorem Maze.inGrid_of_hasFlag (m : Maze) (p : Position) (v : Nat)
    (h : m.hasFlag p v = true) : m.InGrid p := by
  by_contra hng
  rw [Maze.InGrid] at hng
  unfold Maze.hasFlag Maze.getCell at h
  rw [if_neg hng] at h
  simp at h

/-- In a linked chain the last cell is the head itself or is entered from
some chain cell through an open edge. -/
theorem chain_last_step (m : Maze) :
    ∀ (l : List Position) (p z : Position), ChainLinked m (p :: l) →
      (p :: l).getLast? = some z →
      p = z ∨ ∃ q d, q ∈ p :: l ∧ d ∈ dirs4 ∧ m.canMove q d = true ∧ q.move d = z := by
  intro l
  induction l with
  | nil =>
    intro p z h hl
    left
    simpa using hl
  | cons q rest ih =>
    intro p z h hl
    obtain ⟨⟨d, hd, hq, hcm⟩, hrest⟩ := h
    have hl2 : (q :: rest).getLast? = some z := by
      simpa [List.getLast?_cons_cons] using hl
    rcases ih q z hrest hl2 with hqz | ⟨r, d2, hr, hd2, hcm2, hmv⟩
    · right
      exact ⟨p, d, by simp, hd, hcm, by rw [← hq, hqz]⟩
    · right
      refine ⟨r, d2, ?_, hd2, hcm2, hmv⟩
      simp only [List.mem_cons] at hr ⊢
      tauto

/-- The all-open 1-wide 4-tall corridor maze. -/
def corridor4 : Maze := ⟨1, 4, [0, 0, 0, 0], [-1, -1, -1, -1], []⟩

/-- C1 (code bug, evaluated at the failing input): on the all-open
1-wide 4-tall corridor maze, a solvable maze, MT_M2 ends with FINISHED
but marks ON_PATH only (0,0), (1,0) and (3,0): the reconstruction skips
(2,0) because the collision cell is owned by walker 5 whose stack does
not contain it, so the segment walk runs zero segments.  The marked set
is not a Start-to-End chain: no marked cell has an open edge into End. -/
theorem C1_mtm2_broken_path :
    (MTSolver.solve_step_by_step corridor4 50).1.getLast? = some Tok.FINISHED ∧
    pathCells (MTSolver.solve_step_by_step corridor4 50).2 =
      [⟨0, 0⟩, ⟨1, 0⟩, ⟨3, 0⟩] ∧
    ¬ FormsPathChain (MTSolver.solve_step_by_step corridor4 50).2 := by
  refine ⟨by decide, by decide, ?_⟩
  rintro ⟨l, hh, hl, hc, hmem⟩
  match l, hh with
  | p :: l2, hh =>
  have hp : p = (MTSolver.solve_step_by_step corridor4 50).2.getStart := by
    simpa using hh
  rcases chain_last_step _ l2 p _ hc hl with hpz | ⟨q, d, hq, hd, hcm, hmv⟩
  · rw [hp] at hpz
    exact absurd hpz (by decide)
  · have hflag := (hmem q).mp hq
    have hgrid := Maze.inGrid_of_hasFlag _ _ _ hflag
    have hw : (MTSolver.solve_step_by_step corridor4 50).2.width = 1 := by decide
    have hhgt : (MTSolver.solve_step_by_step corridor4 50).2.height = 4 := by decide
    obtain ⟨h1, h2, h3, h4⟩ := hgrid
    rw [hw] at h4
    rw [hhgt] at h2
    have hrows : q.row = 0 ∨ q.row = 1 ∨ q.row = 2 ∨ q.row = 3 := by omega
    have hcol : q.col = 0 := by omega
    have hq4 : q = ⟨0, 0⟩ ∨ q = ⟨1, 0⟩ ∨ q = ⟨2, 0⟩ ∨ q = ⟨3, 0⟩ := by
      rcases hrows with h | h | h | h
      · left; cases q; simp_all
      · right; left; cases q; simp_all
      · right; right; left; cases q; simp_all
      · right; right; right; cases q; simp_all
    have hnot2 : q ≠ (⟨2, 0⟩ : Position) := by
      intro hq2
      rw [hq2] at hflag
      exact absurd hflag (by decide)
    simp only [dirs4, List.mem_cons, List.not_mem_nil, or_false] at hd
    rcases hq4 with rfl | rfl | rfl | rfl <;>
      [skip; skip; exact hnot2 rfl; skip] <;>
      rcases hd with rfl | rfl | rfl | rfl <;>
      revert hmv <;> decide

/-- The 2-cell maze with a south wall on the top cell: Start is walled
off from End, so no path exists. -/
def c2maze : Maze := ⟨1, 2, [2, 0], [-1, -1], []⟩

def c2iter : Nat → MTM1State × Maze
  | 0 => MT_M1_Solver.init c2maze
  | n + 1 => mtm1Round (c2iter n).1 (c2iter n).2

theorem c2iter_fix : c2iter 4 = c2iter 3 := by decide

theorem c2iter_stable : ∀ k, c2iter (k + 3) = c2iter 3 := by
  intro k
  induction k with
  | zero => rfl
  | succ n ih =>
    show mtm1Round (c2iter (n + 3)).1 (c2iter (n + 3)).2 = c2iter 3
    rw [ih]
    exact c2iter_fix

theorem c2_cond : ∀ k,
    ¬ ((c2iter k).1.first_exit ∨
      ((c2iter k).1.walker.finished ∧ (c2iter k).1.bfs.finished)) := by
  intro k
  match k with
  | 0 => decide
  | 1 => decide
  | 2 => decide
  | n + 3 => rw [c2iter_stable n]; decide

theorem c2_nobreak : ∀ k,
    ¬ ((c2iter (k + 1)).1.walker.finished ∧
      (c2iter (k + 1)).1.walker.overlap ≠ none) := by
  intro k
  match k with
  | 0 => decide
  | 1 => decide
  | n + 2 => rw [show n + 2 + 1 = n + 3 from rfl, c2iter_stable n]; decide

theorem c2_loop_searching :
    ∀ (n k : Nat), (mtm1Loop n (c2iter k).1 (c2iter k).2).toks =
        List.replicate n Tok.SEARCHING ∧
      (mtm1Loop n (c2iter k).1 (c2iter k).2).completed = false := by
  intro n
  induction n with
  | zero => intro k; exact ⟨rfl, rfl⟩
  | succ j ih =>
    intro k
    simp only [mtm1Loop]
    rw [if_neg (c2_cond k)]
    have hr : mtm1Round (c2iter k).1 (c2iter k).2 = c2iter (k + 1) := rfl
    rw [hr, if_neg (c2_nobreak k)]
    refine ⟨?_, (ih (k + 1)).2⟩
    simp [List.replicate_succ, (ih (k + 1)).1]

/-- C2 (code bug, evaluated at the failing input): on the 2-cell maze
whose top cell has a south wall (Start walled off from End), MT_M1 never
terminates: for every fuel n the emitted token list is n copies of
SEARCHING and no terminal token ever appears.  The backward BFS drains
its queue without ever setting finished, the walker finishes with a null
overlap, so the main loop spins forever; MT_M1 has no NO_SOLUTION
emission at all. -/
theorem C2_mtm1_nontermination (n : Nat) :
    (MT_M1_Solver.solve_step_by_step c2maze n).1 =
      List.replicate n Tok.SEARCHING := by
  have h := c2_loop_searching n 0
  simp only [MT_M1_Solver.solve_step_by_step]
  rw [show MT_M1_Solver.init c2maze = c2iter 0 from rfl, if_pos h.2]
  exact h.1

/-! ## C9 and the C3 counterexample -/

/-- A loaded 1 by 1 maze with the given wall bits (the only cell data a
1 by 1 blob can carry). -/
def maze1x1 (e s : Bool) : Maze :=
  ⟨1, 1, [(if e then 1 else 0) ||| (if s then 2 else 0)], [-1], []⟩

/-- C9 (code bug, evaluated at the failing input): on every 1 by 1 maze,
where Start equals End, BFS, DFS and MT_M1 finish with FINISHED and mark
exactly the single cell ON_PATH as the claim states, but MT_M2 emits
SEARCHING then NO_SOLUTION and marks nothing: its first walker reports
the collision while its target_pos is still null, so collision_pos stays
null and the reconstruction branch is skipped. -/
theorem C9_one_by_one (e s : Bool) :
    (BFSSolver.solve_step_by_step (maze1x1 e s) 10).1.getLast? = some Tok.FINISHED ∧
    pathCells (BFSSolver.solve_step_by_step (maze1x1 e s) 10).2 = [⟨0, 0⟩] ∧
    (DFSSolver.solve_step_by_step (maze1x1 e s) 10).1.getLast? = some Tok.FINISHED ∧
    pathCells (DFSSolver.solve_step_by_step (maze1x1 e s) 10).2 = [⟨0, 0⟩] ∧
    (MT_M1_Solver.solve_step_by_step (maze1x1 e s) 10).1.getLast? = some Tok.FINISHED ∧
    pathCells (MT_M1_Solver.solve_step_by_step (maze1x1 e s) 10).2 = [⟨0, 0⟩] ∧
    (MTSolver.solve_step_by_step (maze1x1 e s) 10).1 =
      [Tok.SEARCHING, Tok.NO_SOLUTION] ∧
    pathCells (MTSolver.solve_step_by_step (maze1x1 e s) 10).2 = [] := by
  cases e <;> cases s <;> decide

/-- The all-open 3 by 3 maze (no internal walls anywhere). -/
def open3x3 : Maze := ⟨3, 3, List.replicate 9 0, List.replicate 9 (-1), []⟩

/-- C3 counterexample: on the all-open 3 by 3 maze BFS finishes, the
visit order stored at End is 4 (the discovery index) while only 3 cells
are marked ON_PATH, so the claimed pair of equalities is impossible: the
ON_PATH count does not equal the visit-order value at End plus 1. -/
theorem C3_counterexample :
    (BFSSolver.solve_step_by_step open3x3 30).1.getLast? = some Tok.FINISHED ∧
    (BFSSolver.solve_step_by_step open3x3 30).2.getVisitOrder open3x3.getEnd =
      some 4 ∧
    (pathCells (BFSSolver.solve_step_by_step open3x3 30).2).length = 3 ∧
    ¬ ((pathCells (BFSSolver.solve_step_by_step open3x3 30).2).length = 4 + 1) := by
  refine ⟨by decide, by decide, by decide, by decide⟩

/-! ## Frame lemmas for the BFS verification (claim C3) -/

/-- A freshly loaded (or loaded-then-reset) maze: positive dimensions,
arrays of matching size, cells holding only wall bits, visit order -1
everywhere. -/
def LoadedState (m0 : Maze) : Prop :=
  1 ≤ m0.width ∧ 1 ≤ m0.height ∧
  m0.cells.length = (m0.width * m0.height).toNat ∧
  m0.visitOrder.length = (m0.width * m0.height).toNat ∧
  (∀ v ∈ m0.cells, v &&& 3 = v) ∧
  (∀ v ∈ m0.visitOrder, v = -1)

theorem Maze.cellIndex_nonneg (m : Maze) (p : Position) (hp : m.InGrid p) :
    0 ≤ m.cellIndex p := by
  obtain ⟨h1, h2, h3, h4⟩ := hp
  unfold Maze.cellIndex
  have : 0 ≤ p.row * m.width := mul_nonneg h1 (by omega)
  omega

theorem Maze.cellIndex_lt (m : Maze) (p : Position) (hp : m.InGrid p) :
    m.cellIndex p < m.width * m.height := by
  obtain ⟨h1, h2, h3, h4⟩ := hp
  unfold Maze.cellIndex
  have hw : 0 < m.width := by omega
  have h5 : p.row * m.width + p.col < (p.row + 1) * m.width := by
    have := add_one_mul p.row m.width
    omega
  have h6 : (p.row + 1) * m.width ≤ m.height * m.width :=
    mul_le_mul_of_nonneg_right (by omega) (by omega)
  have h7 : m.height * m.width = m.width * m.height := mul_comm _ _
  omega

theorem Maze.cellIndex_inj (m : Maze) (p q : Position) (hp : m.InGrid p)
    (hq : m.InGrid q) (h : m.cellIndex p = m.cellIndex q) : p = q := by
  obtain ⟨hp1, hp2, hp3, hp4⟩ := hp
  obtain ⟨hq1, hq2, hq3, hq4⟩ := hq
  unfold Maze.cellIndex at h
  have hrow : p.row = q.row := by
    rcases lt_trichotomy p.row q.row with hlt | heq | hgt
    · exfalso
      have h1 : (p.row + 1) * m.width ≤ q.row * m.width :=
        mul_le_mul_of_nonneg_right (by omega) (by omega)
      have h2 := add_one_mul p.row m.width
      omega
    · exact heq
    · exfalso
      have h1 : (q.row + 1) * m.width ≤ p.row * m.width :=
        mul_le_mul_of_nonneg_right (by omega) (by omega)
      have h2 := add_one_mul q.row m.width
      omega
  have hcol : p.col = q.col := by
    rw [hrow] at h
    omega
  cases p; cases q; simp_all

/-- List getD after set, the Int32Array update visible at any index. -/
theorem List.getD_set_int {α} [Inhabited α] (l : List α) (i j : Nat) (v d : α)
    (h : i < l.length) :
    (l.set i v).getD j d = if j = i then v else l.getD j d := by
  by_cases hj : j = i
  · subst hj
    simp [List.getD_eq_getElem?_getD, List.getElem?_set_self, h]
  · simp [List.getD_eq_getElem?_getD, List.getElem?_set_ne (Ne.symm hj), hj]

/-- Positive dimensions and array lengths matching width times height;
preserved by every cell-store operation. -/
def GoodDims (m : Maze) : Prop :=
  1 ≤ m.width ∧ 1 ≤ m.height ∧
  m.cells.length = (m.width * m.height).toNat ∧
  m.visitOrder.length = (m.width * m.height).toNat

theorem GoodDims.size_int (m : Maze) (hg : GoodDims m) :
    (m.cells.length : Int) = m.width * m.height ∧
    (m.visitOrder.length : Int) = m.width * m.height := by
  obtain ⟨hw, hh, hc, hv⟩ := hg
  have hnn : 0 ≤ m.width * m.height := mul_nonneg (by omega) (by omega)
  constructor
  · rw [hc, Int.toNat_of_nonneg hnn]
  · rw [hv, Int.toNat_of_nonneg hnn]

theorem Maze.getVisitOrder_setCell (m : Maze) (p q : Position) (v : Nat) :
    (m.setCell p v).getVisitOrder q = m.getVisitOrder q := by
  simp only [Maze.setCell]
  split <;> rfl

theorem Maze.getCell_setVisitOrder (m : Maze) (p q : Position) (k : Int) :
    (m.setVisitOrder p k).getCell q = m.getCell q := by
  simp only [Maze.setVisitOrder]
  split <;> rfl

theorem Maze.setCell_dims (m : Maze) (p : Position) (v : Nat) :
    (m.setCell p v).width = m.width ∧ (m.setCell p v).height = m.height ∧
    (m.setCell p v).cells.length = m.cells.length ∧
    (m.setCell p v).visitOrder.length = m.visitOrder.length := by
  simp only [Maze.setCell]
  split <;> simp

theorem Maze.setVisitOrder_dims (m : Maze) (p : Position) (k : Int) :
    (m.setVisitOrder p k).width = m.width ∧ (m.setVisitOrder p k).height = m.height ∧
    (m.setVisitOrder p k).cells.length = m.cells.length ∧
    (m.setVisitOrder p k).visitOrder.length = m.visitOrder.length := by
  simp only [Maze.setVisitOrder]
  split <;> simp

theorem Maze.getCell_eq_getD (m : Maze) (q : Position) (hq : m.InGrid q) :
    m.getCell q = m.cells.getD (q.row * m.width + q.col).toNat 0 := by
  simp only [Maze.getCell, Maze.cellIndex]
  rw [if_pos ⟨hq.1, hq.2.1, hq.2.2.1, hq.2.2.2⟩]

theorem Maze.getVisitOrder_eq_getD (m : Maze) (q : Position) (hq : m.InGrid q)
    (hlen : q.row * m.width + q.col < (m.visitOrder.length : Int)) :
    m.getVisitOrder q = some (m.visitOrder.getD (q.row * m.width + q.col).toNat 0) := by
  have hnn : 0 ≤ q.row * m.width + q.col := by
    have := Maze.cellIndex_nonneg m q hq
    simpa [Maze.cellIndex] using this
  simp only [Maze.getVisitOrder, Maze.cellIndex]
  rw [if_pos ⟨hnn, hlen⟩]

theorem Maze.getCell_setCell (m : Maze) (p q : Position) (v : Nat)
    (hg : GoodDims m) (hp : m.InGrid p) (hq : m.InGrid q) :
    (m.setCell p v).getCell q = if q = p then v else m.getCell q := by
  obtain ⟨hcl, hvl⟩ := GoodDims.size_int m hg
  have hiq := Maze.cellIndex_nonneg m q hq
  have hip := Maze.cellIndex_nonneg m p hp
  have hlq := Maze.cellIndex_lt m q hq
  have hlp := Maze.cellIndex_lt m p hp
  simp only [Maze.cellIndex] at hiq hip hlq hlp
  have hme : m.setCell p v =
      { m with cells := m.cells.set (p.row * m.width + p.col).toNat v } := by
    simp only [Maze.setCell, Maze.cellIndex]
    rw [if_pos ⟨by omega, by omega⟩]
  rw [hme]
  have hq2 : Maze.InGrid { m with cells := m.cells.set (p.row * m.width + p.col).toNat v } q := hq
  rw [Maze.getCell_eq_getD _ q hq2]
  show (m.cells.set (p.row * m.width + p.col).toNat v).getD (q.row * m.width + q.col).toNat 0 = _
  rw [List.getD_set_int _ _ _ _ _ (by omega)]
  have hiff : ((q.row * m.width + q.col).toNat = (p.row * m.width + p.col).toNat) ↔ q = p := by
    constructor
    · intro he
      apply Maze.cellIndex_inj m q p hq hp
      simp only [Maze.cellIndex]
      omega
    · intro he
      rw [he]
  by_cases hqp : q = p
  · rw [if_pos hqp, if_pos (hiff.mpr hqp)]
  · rw [if_neg hqp, if_neg (fun hc => hqp (hiff.mp hc)), Maze.getCell_eq_getD m q hq]

theorem Maze.getVisitOrder_setVisitOrder (m : Maze) (p q : Position) (k : Int)
    (hg : GoodDims m) (hp : m.InGrid p) (hq : m.InGrid q) :
    (m.setVisitOrder p k).getVisitOrder q =
      if q = p then some k else m.getVisitOrder q := by
  obtain ⟨hcl, hvl⟩ := GoodDims.size_int m hg
  have hiq := Maze.cellIndex_nonneg m q hq
  have hip := Maze.cellIndex_nonneg m p hp
  have hlq := Maze.cellIndex_lt m q hq
  have hlp := Maze.cellIndex_lt m p hp
  simp only [Maze.cellIndex] at hiq hip hlq hlp
  have hme : m.setVisitOrder p k =
      { m with visitOrder := m.visitOrder.set (p.row * m.width + p.col).toNat k } := by
    simp only [Maze.setVisitOrder, Maze.cellIndex]
    rw [if_pos ⟨by omega, by omega⟩]
  rw [hme]
  have hq2 : Maze.InGrid { m with visitOrder := m.visitOrder.set (p.row * m.width + p.col).toNat k } q := hq
  rw [Maze.getVisitOrder_eq_getD _ q hq2 (by simp; omega)]
  show some ((m.visitOrder.set (p.row * m.width + p.col).toNat k).getD (q.row * m.width + q.col).toNat 0) = _
  rw [List.getD_set_int _ _ _ _ _ (by omega)]
  have hiff : ((q.row * m.width + q.col).toNat = (p.row * m.width + p.col).toNat) ↔ q = p := by
    constructor
    · intro he
      apply Maze.cellIndex_inj m q p hq hp
      simp only [Maze.cellIndex]
      omega
    · intro he
      rw [he]
  by_cases hqp : q = p
  · rw [if_pos hqp, if_pos (hiff.mpr hqp)]
  · rw [if_neg hqp, if_neg (fun hc => hqp (hiff.mp hc)),
      Maze.getVisitOrder_eq_getD m q hq (by omega)]

theorem Maze.getCell_out (m : Maze) (q : Position) (h : ¬ m.InGrid q) :
    m.getCell q = 0 := by
  rw [Maze.InGrid] at h
  unfold Maze.getCell
  rw [if_neg h]

theorem land_chain2 (v M a b t : Nat) :
    (((v &&& M) ||| a) ||| b) &&& t = ((v &&& (M &&& t)) ||| (a &&& t)) ||| (b &&& t) := by
  rw [Nat.and_distrib_right, Nat.and_distrib_right, Nat.land_assoc]

theorem land_chain1 (v M a t : Nat) :
    ((v &&& M) ||| a) &&& t = (v &&& (M &&& t)) ||| (a &&& t) := by
  rw [Nat.and_distrib_right, Nat.land_assoc]

theorem hasFlag_low_congr (m m' : Maze)
    (hcell : ∀ q, m'.getCell q &&& 3 = m.getCell q &&& 3)
    (q : Position) (t : Nat) (ht : 3 &&& t = t) : m'.hasFlag q t = m.hasFlag q t := by
  unfold Maze.hasFlag
  have h : m'.getCell q &&& t = m.getCell q &&& t := by
    calc m'.getCell q &&& t = m'.getCell q &&& (3 &&& t) := by rw [ht]
      _ = (m'.getCell q &&& 3) &&& t := by rw [Nat.land_assoc]
      _ = (m.getCell q &&& 3) &&& t := by rw [hcell q]
      _ = m.getCell q &&& (3 &&& t) := by rw [Nat.land_assoc]
      _ = m.getCell q &&& t := by rw [ht]
  rw [h]

theorem Maze.canMove_congr (m m' : Maze) (hw : m'.width = m.width)
    (hh : m'.height = m.height)
    (hcell : ∀ q, m'.getCell q &&& 3 = m.getCell q &&& 3) (p : Position)
    (d : Direction) : m'.canMove p d = m.canMove p d := by
  unfold Maze.canMove
  rw [hw, hh]
  rw [hasFlag_low_congr m m' hcell (p.move Direction.North) InternalBit.SOUTH_BIT (by decide)]
  rw [hasFlag_low_congr m m' hcell p InternalBit.SOUTH_BIT (by decide)]
  rw [hasFlag_low_congr m m' hcell p InternalBit.EAST_BIT (by decide)]
  rw [hasFlag_low_congr m m' hcell (p.move Direction.West) InternalBit.EAST_BIT (by decide)]

theorem Maze.InGrid_congr (m m' : Maze) (hw : m'.width = m.width)
    (hh : m'.height = m.height) (p : Position) : m'.InGrid p ↔ m.InGrid p := by
  rw [Maze.InGrid, Maze.InGrid, hw, hh]

theorem setDirVal_and (v c t : Nat) (hM : jsNot InternalBit.PARENT_MASK &&& t = t)
    (h4 : InternalBit.VISITED_BIT &&& t = 0) (hc : c &&& t = 0) :
    (((v &&& jsNot InternalBit.PARENT_MASK) ||| InternalBit.VISITED_BIT) ||| c) &&& t =
      v &&& t := by
  rw [land_chain2, hM, h4, hc, Nat.or_zero, Nat.or_zero]

theorem setDirVal_and_parent (v c t : Nat)
    (hM : jsNot InternalBit.PARENT_MASK &&& t = 0)
    (h4 : InternalBit.VISITED_BIT &&& t = 0) :
    (((v &&& jsNot InternalBit.PARENT_MASK) ||| InternalBit.VISITED_BIT) ||| c) &&& t =
      c &&& t := by
  rw [land_chain2, hM, Nat.and_zero, h4, Nat.zero_or, Nat.zero_or]

theorem setDirVal1_and (v t : Nat) (hM : jsNot InternalBit.PARENT_MASK &&& t = t)
    (h4 : InternalBit.VISITED_BIT &&& t = 0) :
    ((v &&& jsNot InternalBit.PARENT_MASK) ||| InternalBit.VISITED_BIT) &&& t =
      v &&& t := by
  rw [land_chain1, hM, h4, Nat.or_zero]

theorem setDirVal1_and_parent (v t : Nat)
    (hM : jsNot InternalBit.PARENT_MASK &&& t = 0)
    (h4 : InternalBit.VISITED_BIT &&& t = 0) :
    ((v &&& jsNot InternalBit.PARENT_MASK) ||| InternalBit.VISITED_BIT) &&& t = 0 := by
  rw [land_chain1, hM, Nat.and_zero, h4, Nat.or_zero]

theorem Maze.setDirectionRouteBT_dims (m : Maze) (p : Position) (d : Direction) :
    (m.setDirectionRouteBT p d).width = m.width ∧
    (m.setDirectionRouteBT p d).height = m.height ∧
    (m.setDirectionRouteBT p d).cells.length = m.cells.length ∧
    (m.setDirectionRouteBT p d).visitOrder.length = m.visitOrder.length := by
  simp only [Maze.setDirectionRouteBT]
  exact Maze.setCell_dims m p _

theorem Maze.getVisitOrder_setDirectionRouteBT (m : Maze) (p q : Position)
    (d : Direction) :
    (m.setDirectionRouteBT p d).getVisitOrder q = m.getVisitOrder q := by
  simp only [Maze.setDirectionRouteBT]
  exact Maze.getVisitOrder_setCell m p q _

theorem Maze.markPath_dims (m : Maze) (p : Position) :
    (m.markPath p).width = m.width ∧ (m.markPath p).height = m.height ∧
    (m.markPath p).cells.length = m.cells.length ∧
    (m.markPath p).visitOrder.length = m.visitOrder.length := by
  simp only [Maze.markPath, Maze.setFlag]
  exact Maze.setCell_dims m p _

theorem Maze.getVisitOrder_markPath (m : Maze) (p q : Position) :
    (m.markPath p).getVisitOrder q = m.getVisitOrder q := by
  simp only [Maze.markPath, Maze.setFlag]
  exact Maze.getVisitOrder_setCell m p q _

theorem Maze.getCell_setDirectionRouteBT_other (m : Maze) (p q : Position)
    (d : Direction) (hg : GoodDims m) (hp : m.InGrid p) (hqp : q ≠ p) :
    (m.setDirectionRouteBT p d).getCell q = m.getCell q := by
  by_cases hq : m.InGrid q
  · simp only [Maze.setDirectionRouteBT]
    rw [Maze.getCell_setCell m p q _ hg hp hq, if_neg hqp]
  · have hd := Maze.setDirectionRouteBT_dims m p d
    rw [Maze.getCell_out m q hq, Maze.getCell_out]
    rw [Maze.InGrid_congr m (m.setDirectionRouteBT p d) hd.1 hd.2.1 q]
    exact hq

theorem Maze.getCell_markPath_other (m : Maze) (p q : Position)
    (hg : GoodDims m) (hp : m.InGrid p) (hqp : q ≠ p) :
    (m.markPath p).getCell q = m.getCell q := by
  by_cases hq : m.InGrid q
  · simp only [Maze.markPath, Maze.setFlag]
    rw [Maze.getCell_setCell m p q _ hg hp hq, if_neg hqp]
  · have hd := Maze.markPath_dims m p
    rw [Maze.getCell_out m q hq, Maze.getCell_out]
    rw [Maze.InGrid_congr m (m.markPath p) hd.1 hd.2.1 q]
    exact hq

theorem Maze.getCell_setDirectionRouteBT_self (m : Maze) (p : Position)
    (d : Direction) (hg : GoodDims m) (hp : m.InGrid p) :
    (m.setDirectionRouteBT p d).getCell p =
      (if d = Direction.North then
        ((m.getCell p &&& jsNot InternalBit.PARENT_MASK) |||
          InternalBit.VISITED_BIT) ||| InternalBit.PARENT_NORTH
      else if d = Direction.East then
        ((m.getCell p &&& jsNot InternalBit.PARENT_MASK) |||
          InternalBit.VISITED_BIT) ||| InternalBit.PARENT_EAST
      else if d = Direction.South then
        ((m.getCell p &&& jsNot InternalBit.PARENT_MASK) |||
          InternalBit.VISITED_BIT) ||| InternalBit.PARENT_SOUTH
      else if d = Direction.West then
        ((m.getCell p &&& jsNot InternalBit.PARENT_MASK) |||
          InternalBit.VISITED_BIT) ||| InternalBit.PARENT_WEST
      else (m.getCell p &&& jsNot InternalBit.PARENT_MASK) |||
        InternalBit.VISITED_BIT) := by
  simp only [Maze.setDirectionRouteBT]
  rw [Maze.getCell_setCell m p p _ hg hp hp, if_pos rfl]

theorem Maze.getCell_markPath_self (m : Maze) (p : Position)
    (hg : GoodDims m) (hp : m.InGrid p) :
    (m.markPath p).getCell p = m.getCell p ||| InternalBit.PATH_BIT := by
  simp only [Maze.markPath, Maze.setFlag]
  rw [Maze.getCell_setCell m p p _ hg hp hp, if_pos rfl]

theorem Maze.walls_setDirectionRouteBT (m : Maze) (p : Position) (d : Direction)
    (hg : GoodDims m) (hp : m.InGrid p) (q : Position) :
    (m.setDirectionRouteBT p d).getCell q &&& 3 = m.getCell q &&& 3 := by
  by_cases hqp : q = p
  · subst hqp
    rw [Maze.getCell_setDirectionRouteBT_self m q d hg hp]
    rcases d with _ | _ | _ | _ | _
    · rw [if_pos rfl]
      exact setDirVal_and _ _ _ (by decide) (by decide) (by decide)
    · rw [if_neg (by decide), if_pos rfl]
      exact setDirVal_and _ _ _ (by decide) (by decide) (by decide)
    · rw [if_neg (by decide), if_neg (by decide), if_pos rfl]
      exact setDirVal_and _ _ _ (by decide) (by decide) (by decide)
    · rw [if_neg (by decide), if_neg (by decide), if_neg (by decide), if_pos rfl]
      exact setDirVal_and _ _ _ (by decide) (by decide) (by decide)
    · rw [if_neg (by decide), if_neg (by decide), if_neg (by decide),
        if_neg (by decide)]
      exact setDirVal1_and _ _ (by decide) (by decide)
  · rw [Maze.getCell_setDirectionRouteBT_other m p q d hg hp hqp]

theorem Maze.walls_markPath (m : Maze) (p : Position)
    (hg : GoodDims m) (hp : m.InGrid p) (q : Position) :
    (m.markPath p).getCell q &&& 3 = m.getCell q &&& 3 := by
  by_cases hqp : q = p
  · subst hqp
    rw [Maze.getCell_markPath_self m q hg hp, Nat.and_distrib_right]
    have h0 : InternalBit.PATH_BIT &&& 3 = 0 := by decide
    rw [h0, Nat.or_zero]
  · rw [Maze.getCell_markPath_other m p q hg hp hqp]

theorem Maze.path_setDirectionRouteBT (m : Maze) (p : Position) (d : Direction)
    (hg : GoodDims m) (hp : m.InGrid p) (q : Position) :
    (m.setDirectionRouteBT p d).hasFlag q InternalBit.PATH_BIT =
      m.hasFlag q InternalBit.PATH_BIT := by
  unfold Maze.hasFlag
  by_cases hqp : q = p
  · subst hqp
    rw [Maze.getCell_setDirectionRouteBT_self m q d hg hp]
    rcases d with _ | _ | _ | _ | _
    · rw [if_pos rfl, setDirVal_and _ _ _ (by decide) (by decide) (by decide)]
    · rw [if_neg (by decide), if_pos rfl,
        setDirVal_and _ _ _ (by decide) (by decide) (by decide)]
    · rw [if_neg (by decide), if_neg (by decide), if_pos rfl,
        setDirVal_and _ _ _ (by decide) (by decide) (by decide)]
    · rw [if_neg (by decide), if_neg (by decide), if_neg (by decide), if_pos rfl,
        setDirVal_and _ _ _ (by decide) (by decide) (by decide)]
    · rw [if_neg (by decide), if_neg (by decide), if_neg (by decide),
        if_neg (by decide), setDirVal1_and _ _ (by decide) (by decide)]
  · rw [Maze.getCell_setDirectionRouteBT_other m p q d hg hp hqp]

/-- The pure read of the parent bits of a cell word; getDirectionRouteBT
is this function applied to getCell. -/
def parentDirOfVal (v : Nat) : Direction :=
  if v &&& InternalBit.PARENT_NORTH != 0 then Direction.North
  else if v &&& InternalBit.PARENT_EAST != 0 then Direction.East
  else if v &&& InternalBit.PARENT_SOUTH != 0 then Direction.South
  else if v &&& InternalBit.PARENT_WEST != 0 then Direction.West
  else Direction.Uninitialized

theorem Maze.getDirectionRouteBT_eq (m : Maze) (p : Position) :
    m.getDirectionRouteBT p = parentDirOfVal (m.getCell p) := rfl

theorem parentDirOfVal_north (v : Nat) :
    parentDirOfVal (((v &&& jsNot InternalBit.PARENT_MASK) |||
      InternalBit.VISITED_BIT) ||| InternalBit.PARENT_NORTH) = Direction.North := by
  unfold parentDirOfVal
  rw [setDirVal_and_parent _ _ _ (by decide) (by decide),
    setDirVal_and_parent _ _ _ (by decide) (by decide),
    setDirVal_and_parent _ _ _ (by decide) (by decide),
    setDirVal_and_parent _ _ _ (by decide) (by decide)]
  decide

theorem parentDirOfVal_east (v : Nat) :
    parentDirOfVal (((v &&& jsNot InternalBit.PARENT_MASK) |||
      InternalBit.VISITED_BIT) ||| InternalBit.PARENT_EAST) = Direction.East := by
  unfold parentDirOfVal
  rw [setDirVal_and_parent _ _ _ (by decide) (by decide),
    setDirVal_and_parent _ _ _ (by decide) (by decide),
    setDirVal_and_parent _ _ _ (by decide) (by decide),
    setDirVal_and_parent _ _ _ (by decide) (by decide)]
  decide

theorem parentDirOfVal_south (v : Nat) :
    parentDirOfVal (((v &&& jsNot InternalBit.PARENT_MASK) |||
      InternalBit.VISITED_BIT) ||| InternalBit.PARENT_SOUTH) = Direction.South := by
  unfold parentDirOfVal
  rw [setDirVal_and_parent _ _ _ (by decide) (by decide),
    setDirVal_and_parent _ _ _ (by decide) (by decide),
    setDirVal_and_parent _ _ _ (by decide) (by decide),
    setDirVal_and_parent _ _ _ (by decide) (by decide)]
  decide

theorem parentDirOfVal_west (v : Nat) :
    parentDirOfVal (((v &&& jsNot InternalBit.PARENT_MASK) |||
      InternalBit.VISITED_BIT) ||| InternalBit.PARENT_WEST) = Direction.West := by
  unfold parentDirOfVal
  rw [setDirVal_and_parent _ _ _ (by decide) (by decide),
    setDirVal_and_parent _ _ _ (by decide) (by decide),
    setDirVal_and_parent _ _ _ (by decide) (by decide),
    setDirVal_and_parent _ _ _ (by decide) (by decide)]
  decide

theorem parentDirOfVal_unint (v : Nat) :
    parentDirOfVal ((v &&& jsNot InternalBit.PARENT_MASK) |||
      InternalBit.VISITED_BIT) = Direction.Uninitialized := by
  unfold parentDirOfVal
  rw [setDirVal1_and_parent _ _ (by decide) (by decide),
    setDirVal1_and_parent _ _ (by decide) (by decide),
    setDirVal1_and_parent _ _ (by decide) (by decide),
    setDirVal1_and_parent _ _ (by decide) (by decide)]
  decide

theorem parentDirOfVal_or_path (v : Nat) :
    parentDirOfVal (v ||| InternalBit.PATH_BIT) = parentDirOfVal v := by
  unfold parentDirOfVal
  rw [Nat.and_distrib_right, Nat.and_distrib_right, Nat.and_distrib_right,
    Nat.and_distrib_right]
  have h1 : InternalBit.PATH_BIT &&& InternalBit.PARENT_NORTH = 0 := by decide
  have h2 : InternalBit.PATH_BIT &&& InternalBit.PARENT_EAST = 0 := by decide
  have h3 : InternalBit.PATH_BIT &&& InternalBit.PARENT_SOUTH = 0 := by decide
  have h4 : InternalBit.PATH_BIT &&& InternalBit.PARENT_WEST = 0 := by decide
  rw [h1, h2, h3, h4, Nat.or_zero, Nat.or_zero, Nat.or_zero, Nat.or_zero]

theorem Maze.pdir_setDirectionRouteBT_self (m : Maze) (p : Position) (d : Direction)
    (hg : GoodDims m) (hp : m.InGrid p) :
    (m.setDirectionRouteBT p d).getDirectionRouteBT p = d := by
  rw [Maze.getDirectionRouteBT_eq, Maze.getCell_setDirectionRouteBT_self m p d hg hp]
  rcases d with _ | _ | _ | _ | _
  · rw [if_pos rfl]
    exact parentDirOfVal_north _
  · rw [if_neg (by decide), if_pos rfl]
    exact parentDirOfVal_east _
  · rw [if_neg (by decide), if_neg (by decide), if_pos rfl]
    exact parentDirOfVal_south _
  · rw [if_neg (by decide), if_neg (by decide), if_neg (by decide), if_pos rfl]
    exact parentDirOfVal_west _
  · rw [if_neg (by decide), if_neg (by decide), if_neg (by decide),
      if_neg (by decide)]
    exact parentDirOfVal_unint _

theorem Maze.pdir_setDirectionRouteBT_other (m : Maze) (p q : Position)
    (d : Direction) (hg : GoodDims m) (hp : m.InGrid p) (hqp : q ≠ p) :
    (m.setDirectionRouteBT p d).getDirectionRouteBT q = m.getDirectionRouteBT q := by
  rw [Maze.getDirectionRouteBT_eq, Maze.getDirectionRouteBT_eq,
    Maze.getCell_setDirectionRouteBT_other m p q d hg hp hqp]

theorem Maze.pdir_setVisitOrder (m : Maze) (p q : Position) (k : Int) :
    (m.setVisitOrder p k).getDirectionRouteBT q = m.getDirectionRouteBT q := by
  rw [Maze.getDirectionRouteBT_eq, Maze.getDirectionRouteBT_eq,
    Maze.getCell_setVisitOrder m p q k]

theorem Maze.path_setVisitOrder (m : Maze) (p q : Position) (k : Int) :
    (m.setVisitOrder p k).hasFlag q InternalBit.PATH_BIT =
      m.hasFlag q InternalBit.PATH_BIT := by
  unfold Maze.hasFlag
  rw [Maze.getCell_setVisitOrder m p q k]

theorem Maze.walls_setVisitOrder (m : Maze) (p q : Position) (k : Int) :
    (m.setVisitOrder p k).getCell q &&& 3 = m.getCell q &&& 3 := by
  rw [Maze.getCell_setVisitOrder m p q k]

theorem Maze.pdir_markPath (m : Maze) (p q : Position)
    (hg : GoodDims m) (hp : m.InGrid p) :
    (m.markPath p).getDirectionRouteBT q = m.getDirectionRouteBT q := by
  rw [Maze.getDirectionRouteBT_eq, Maze.getDirectionRouteBT_eq]
  by_cases hqp : q = p
  · subst hqp
    rw [Maze.getCell_markPath_self m q hg hp, parentDirOfVal_or_path]
  · rw [Maze.getCell_markPath_other m p q hg hp hqp]

theorem Maze.path_markPath (m : Maze) (p q : Position)
    (hg : GoodDims m) (hp : m.InGrid p) :
    (m.markPath p).hasFlag q InternalBit.PATH_BIT = true ↔
      (m.hasFlag q InternalBit.PATH_BIT = true ∨ q = p) := by
  unfold Maze.hasFlag
  by_cases hqp : q = p
  · subst hqp
    rw [Maze.getCell_markPath_self m q hg hp]
    simp only [or_true, iff_true, bne_iff_ne, ne_eq]
    intro h
    rw [Nat.and_distrib_right] at h
    have h8 : InternalBit.PATH_BIT &&& InternalBit.PATH_BIT = 8 := by decide
    rw [h8] at h
    have h2 := congrArg (fun n => n.testBit 3) h
    simp [Nat.testBit_or] at h2
    exact absurd h2.2 (by decide)
  · rw [Maze.getCell_markPath_other m p q hg hp hqp]
    simp [hqp]

theorem Maze.canMove_target_inGrid (m : Maze) (p : Position) (d : Direction)
    (hd : d ∈ dirs4) (hp : m.InGrid p) (h : m.canMove p d = true) :
    m.InGrid (p.move d) := by
  obtain ⟨h1, h2, h3, h4⟩ := hp
  simp only [dirs4, List.mem_cons, List.not_mem_nil, or_false] at hd
  rcases hd with rfl | rfl | rfl | rfl
  · by_cases hb : p.row = 0
    · exfalso
      unfold Maze.canMove at h
      rw [if_pos rfl, if_pos (by simp [hb])] at h
      exact Bool.false_ne_true h
    · refine ⟨?_, ?_, ?_, ?_⟩ <;> simp [Position.move] <;> omega
  · by_cases hb : p.col = m.width - 1
    · exfalso
      unfold Maze.canMove at h
      rw [if_neg (by decide), if_neg (by decide), if_pos rfl,
        if_pos (by simp [hb])] at h
      exact Bool.false_ne_true h
    · refine ⟨?_, ?_, ?_, ?_⟩ <;> simp [Position.move] <;> omega
  · by_cases hb : p.row = m.height - 1
    · exfalso
      unfold Maze.canMove at h
      rw [if_neg (by decide), if_pos rfl, if_pos (by simp [hb])] at h
      exact Bool.false_ne_true h
    · refine ⟨?_, ?_, ?_, ?_⟩ <;> simp [Position.move] <;> omega
  · by_cases hb : p.col = 0
    · exfalso
      unfold Maze.canMove at h
      rw [if_neg (by decide), if_neg (by decide), if_neg (by decide), if_pos rfl,
        if_pos (by simp [hb])] at h
      exact Bool.false_ne_true h
    · refine ⟨?_, ?_, ?_, ?_⟩ <;> simp [Position.move] <;> omega

theorem move_reverseDir (p : Position) (d : Direction) (hd : d ∈ dirs4) :
    (p.move d).move (reverseDir d) = p := by
  simp only [dirs4, List.mem_cons, List.not_mem_nil, or_false] at hd
  cases p
  rcases hd with rfl | rfl | rfl | rfl <;> simp [Position.move, reverseDir]

theorem parentOf_eq_reverseDir (d : Direction) : parentOf d = reverseDir d := by
  rcases d with _ | _ | _ | _ | _ <;> rfl

theorem reverseDir_mem_dirs4 (d : Direction) (hd : d ∈ dirs4) :
    reverseDir d ∈ dirs4 := by
  simp only [dirs4, List.mem_cons, List.not_mem_nil, or_false] at hd ⊢
  rcases hd with rfl | rfl | rfl | rfl <;> simp [reverseDir]

theorem ne_unint_of_mem_dirs4 (d : Direction) (hd : d ∈ dirs4) :
    d ≠ Direction.Uninitialized := by
  simp only [dirs4, List.mem_cons, List.not_mem_nil, or_false] at hd
  rcases hd with rfl | rfl | rfl | rfl <;> simp

/-! ## The BFS invariant -/

/-- Per-cell parent structure left by the BFS search: each discovered
cell is the start (no parent bits) or carries a parent direction along
an open edge towards an earlier-discovered cell. -/
def OrdOk (m0 m : Maze) : Prop :=
  ∀ p, m0.InGrid p → ∃ v, m.getVisitOrder p = some v ∧
    (v = -1 ∨ (0 ≤ v ∧
      ((p = m0.getStart ∧ m.getDirectionRouteBT p = Direction.Uninitialized) ∨
       (∃ d, d ∈ dirs4 ∧ m.getDirectionRouteBT p = d ∧ m0.canMove p d = true ∧
         m0.InGrid (p.move d) ∧
         ∃ k2, m.getVisitOrder (p.move d) = some k2 ∧ 0 ≤ k2 ∧ k2 < v))))

structure BfsInv (m0 m : Maze) (q : List Position) (counter : Int) : Prop where
  gdims : GoodDims m
  wd : m.width = m0.width
  ht : m.height = m0.height
  walls : ∀ p, m.getCell p &&& 3 = m0.getCell p &&& 3
  cpos : 1 ≤ counter
  cbound : ∀ p, m0.InGrid p → ∀ v, m.getVisitOrder p = some v → v < counter
  qmem : ∀ p ∈ q, m0.InGrid p ∧
    ∃ k, m.getVisitOrder p = some k ∧ 0 ≤ k ∧ k < counter
  ordOk : OrdOk m0 m
  noPath : ∀ p, m.hasFlag p InternalBit.PATH_BIT = false

theorem BfsInv.canMoveEq (m0 m : Maze) (q : List Position) (counter : Int)
    (inv : BfsInv m0 m q counter) (p : Position) (d : Direction) :
    m.canMove p d = m0.canMove p d :=
  Maze.canMove_congr m0 m inv.wd inv.ht inv.walls p d

theorem BfsInv.inGridEq (m0 m : Maze) (q : List Position) (counter : Int)
    (inv : BfsInv m0 m q counter) (p : Position) : m.InGrid p ↔ m0.InGrid p :=
  Maze.InGrid_congr m0 m inv.wd inv.ht p

/-- The state after discovering one new cell from cur satisfies the
invariant with the cell appended to the queue and the counter bumped. -/
theorem bfs_discover_inv (m0 m : Maze) (q : List Position) (counter : Int)
    (inv : BfsInv m0 m q counter) (cur : Position) (d : Direction)
    (hd : d ∈ dirs4) (hcur : m0.InGrid cur)
    (hcord : ∃ k, m.getVisitOrder cur = some k ∧ 0 ≤ k ∧ k < counter)
    (hcm : m.canMove cur d = true)
    (hnew : m.getVisitOrder (cur.move d) = some (-1)) :
    BfsInv m0 ((m.setDirectionRouteBT (cur.move d) (parentOf d)).setVisitOrder
      (cur.move d) counter) (q ++ [cur.move d]) (counter + 1) ∧
    (∀ r, m0.InGrid r → r ≠ cur.move d →
      ((m.setDirectionRouteBT (cur.move d) (parentOf d)).setVisitOrder
        (cur.move d) counter).getVisitOrder r = m.getVisitOrder r) := by
  obtain ⟨kc, hkc, hkc0, hkcc⟩ := hcord
  have hcm0 : m0.canMove cur d = true := by
    rw [← BfsInv.canMoveEq m0 m q counter inv]; exact hcm
  have hng : m0.InGrid (cur.move d) :=
    Maze.canMove_target_inGrid m0 cur d hd hcur hcm0
  have hcurne : cur ≠ cur.move d := by
    intro he
    rw [← he] at hnew
    rw [hnew] at hkc
    simp at hkc
    omega
  have hgm : ∀ r, m.InGrid r ↔ m0.InGrid r :=
    fun r => BfsInv.inGridEq m0 m q counter inv r
  have hmgnext : m.InGrid (cur.move d) := (hgm _).mpr hng
  set mA := m.setDirectionRouteBT (cur.move d) (parentOf d) with hmA
  have hdimsA := Maze.setDirectionRouteBT_dims m (cur.move d) (parentOf d)
  have hgA : GoodDims mA := by
    obtain ⟨a, b, c, e⟩ := inv.gdims
    exact ⟨by rw [hdimsA.1]; exact a, by rw [hdimsA.2.1]; exact b,
      by rw [hdimsA.2.2.1, hdimsA.1, hdimsA.2.1]; exact c,
      by rw [hdimsA.2.2.2, hdimsA.1, hdimsA.2.1]; exact e⟩
  have hAgnext : mA.InGrid (cur.move d) := by
    rw [Maze.InGrid_congr m mA hdimsA.1 hdimsA.2.1]
    exact hmgnext
  set mB := mA.setVisitOrder (cur.move d) counter with hmB
  have hdimsB := Maze.setVisitOrder_dims mA (cur.move d) counter
  have hgB : GoodDims mB := by
    obtain ⟨a, b, c, e⟩ := hgA
    exact ⟨by rw [hdimsB.1]; exact a, by rw [hdimsB.2.1]; exact b,
      by rw [hdimsB.2.2.1, hdimsB.1, hdimsB.2.1]; exact c,
      by rw [hdimsB.2.2.2, hdimsB.1, hdimsB.2.1]; exact e⟩
  have hordB : ∀ r, m0.InGrid r → mB.getVisitOrder r =
      if r = cur.move d then some counter else m.getVisitOrder r := by
    intro r hr
    rw [hmB, Maze.getVisitOrder_setVisitOrder mA (cur.move d) r counter hgA hAgnext
      (by rw [Maze.InGrid_congr m mA hdimsA.1 hdimsA.2.1]; exact (hgm r).mpr hr),
      hmA, Maze.getVisitOrder_setDirectionRouteBT m (cur.move d) r (parentOf d)]
  have hpdirB : ∀ r, r ≠ cur.move d →
      mB.getDirectionRouteBT r = m.getDirectionRouteBT r := by
    intro r hrne
    rw [hmB, Maze.pdir_setVisitOrder mA (cur.move d) r counter, hmA,
      Maze.pdir_setDirectionRouteBT_other m (cur.move d) r (parentOf d) inv.gdims
        hmgnext hrne]
  have hpdirB_next : mB.getDirectionRouteBT (cur.move d) = parentOf d := by
    rw [hmB, Maze.pdir_setVisitOrder mA (cur.move d) (cur.move d) counter, hmA,
      Maze.pdir_setDirectionRouteBT_self m (cur.move d) (parentOf d) inv.gdims hmgnext]
  refine ⟨⟨hgB, ?_, ?_, ?_, by omega, ?_, ?_, ?_, ?_⟩,
    fun r hr hrne => by rw [hordB r hr, if_neg hrne]⟩
  · rw [hdimsB.1, hdimsA.1]; exact inv.wd
  · rw [hdimsB.2.1, hdimsA.2.1]; exact inv.ht
  · intro r
    rw [hmB, Maze.walls_setVisitOrder mA (cur.move d) r counter, hmA,
      Maze.walls_setDirectionRouteBT m (cur.move d) (parentOf d) inv.gdims hmgnext r]
    exact inv.walls r
  · intro r hr v hv
    rw [hordB r hr] at hv
    by_cases hre : r = cur.move d
    · rw [if_pos hre] at hv
      have : counter = v := by simpa using hv
      omega
    · rw [if_neg hre] at hv
      have := inv.cbound r hr v hv
      omega
  · intro r hrq
    rw [List.mem_append] at hrq
    rcases hrq with hrq | hrq
    · obtain ⟨hrg, k, hk, hk0, hkc2⟩ := inv.qmem r hrq
      refine ⟨hrg, k, ?_, hk0, by omega⟩
      rw [hordB r hrg]
      rw [if_neg ?_]
      · exact hk
      · intro he
        rw [he] at hk
        rw [hnew] at hk
        simp at hk
        omega
    · simp at hrq
      subst hrq
      refine ⟨hng, counter, ?_, by omega, by omega⟩
      rw [hordB _ hng, if_pos rfl]
  · intro r hr
    by_cases hre : r = cur.move d
    · subst hre
      refine ⟨counter, by rw [hordB _ hr, if_pos rfl], Or.inr ⟨by omega, Or.inr ?_⟩⟩
      refine ⟨parentOf d, ?_, hpdirB_next, ?_, ?_, ?_⟩
      · rw [parentOf_eq_reverseDir]; exact reverseDir_mem_dirs4 d hd
      · rw [parentOf_eq_reverseDir, ← Maze.canMove_symm m0 cur d hd hcur hng]
        exact hcm0
      · rw [parentOf_eq_reverseDir, move_reverseDir cur d hd]
        exact hcur
      · refine ⟨kc, ?_, hkc0, by omega⟩
        rw [parentOf_eq_reverseDir, move_reverseDir cur d hd, hordB cur hcur,
          if_neg hcurne]
        exact hkc
    · obtain ⟨v, hv, hrest⟩ := inv.ordOk r hr
      refine ⟨v, by rw [hordB r hr, if_neg hre]; exact hv, ?_⟩
      rcases hrest with hm1 | ⟨hv0, hpar⟩
      · exact Or.inl hm1
      · refine Or.inr ⟨hv0, ?_⟩
        rcases hpar with ⟨hst, hpd⟩ | ⟨d2, hd2, hpd2, hcm2, hg2, k2, hk2, hk20, hk2v⟩
        · exact Or.inl ⟨hst, by rw [hpdirB r hre]; exact hpd⟩
        · refine Or.inr ⟨d2, hd2, by rw [hpdirB r hre]; exact hpd2, hcm2, hg2,
            k2, ?_, hk20, hk2v⟩
          rw [hordB _ hg2, if_neg ?_]
          · exact hk2
          · intro he
            rw [he] at hk2
            rw [hnew] at hk2
            simp at hk2
            omega
  · intro r
    rw [hmB, Maze.path_setVisitOrder mA (cur.move d) r counter, hmA,
      Maze.path_setDirectionRouteBT m (cur.move d) (parentOf d) inv.gdims hmgnext r]
    exact inv.noPath r

/-- Expanding one cell's neighbours preserves the invariant; the counter
never decreases. -/
theorem bfsExpand_inv (m0 : Maze) (cur : Position) :
    ∀ (ds : List Direction), (∀ x ∈ ds, x ∈ dirs4) →
    ∀ (m : Maze) (q : List Position) (counter : Int),
    BfsInv m0 m q counter → m0.InGrid cur →
    (∃ k, m.getVisitOrder cur = some k ∧ 0 ≤ k ∧ k < counter) →
    BfsInv m0 (bfsExpand cur ds m q counter).1 (bfsExpand cur ds m q counter).2.1
      (bfsExpand cur ds m q counter).2.2 ∧
    counter ≤ (bfsExpand cur ds m q counter).2.2 := by
  intro ds
  induction ds with
  | nil =>
    intro _ m q counter inv _ _
    exact ⟨inv, le_refl _⟩
  | cons d ds ih =>
    intro hsub m q counter inv hcurg hcord
    have hd : d ∈ dirs4 := hsub d (List.mem_cons_self d ds)
    have hsub2 : ∀ x ∈ ds, x ∈ dirs4 := fun x hx => hsub x (List.mem_cons_of_mem d hx)
    simp only [bfsExpand]
    by_cases hcm : m.canMove cur d = true
    · rw [if_pos hcm]
      by_cases hnew : m.getVisitOrder (cur.move d) = some (-1)
      · rw [if_pos hnew]
        obtain ⟨inv2, hpres⟩ :=
          bfs_discover_inv m0 m q counter inv cur d hd hcurg hcord hcm hnew
        obtain ⟨k, hk, hk0, hkc⟩ := hcord
        have hcurne : cur ≠ cur.move d := by
          intro he
          rw [← he] at hnew
          rw [hnew] at hk
          simp at hk
          omega
        have hcord2 : ∃ k2,
            ((m.setDirectionRouteBT (cur.move d) (parentOf d)).setVisitOrder
              (cur.move d) counter).getVisitOrder cur = some k2 ∧
            0 ≤ k2 ∧ k2 < counter + 1 := by
          exact ⟨k, by rw [hpres cur hcurg hcurne]; exact hk, hk0, by omega⟩
        have := ih hsub2 _ _ _ inv2 hcurg hcord2
        exact ⟨this.1, by omega⟩
      · rw [if_neg hnew]
        exact ih hsub2 m q counter inv hcurg hcord
    · rw [if_neg hcm]
      exact ih hsub2 m q counter inv hcurg hcord

/-- Everything the main theorem needs from the state of the search when
the BFS loop returns: the invariant at the final maze, and, when the end
was found, its nonnegative visit order. -/
theorem bfsLoop_post (m0 : Maze) (endP : Position) :
    ∀ (fuel : Nat) (m : Maze) (q : List Position) (counter : Int),
    BfsInv m0 m q counter →
    (∃ q2 c2, BfsInv m0 (bfsLoop endP fuel m q counter).2.1 q2 c2) ∧
    ((bfsLoop endP fuel m q counter).2.2 = some true →
      m0.InGrid endP ∧ ∃ k, (bfsLoop endP fuel m q counter).2.1.getVisitOrder endP =
        some k ∧ 0 ≤ k) := by
  intro fuel
  induction fuel with
  | zero =>
    intro m q counter inv
    exact ⟨⟨q, counter, inv⟩, by intro h; simp [bfsLoop] at h⟩
  | succ n ih =>
    intro m q counter inv
    match q with
    | [] =>
      exact ⟨⟨[], counter, inv⟩, by intro h; simp [bfsLoop] at h⟩
    | cur :: q2 =>
      obtain ⟨hcurg, k, hk, hk0, hkc⟩ := inv.qmem cur (List.mem_cons_self cur q2)
      by_cases hce : cur = endP
      · refine ⟨⟨cur :: q2, counter, ?_⟩, ?_⟩
        · simp only [bfsLoop, if_pos hce]
          exact inv
        · intro _
          subst hce
          refine ⟨hcurg, k, ?_, hk0⟩
          simp only [bfsLoop, if_pos rfl]
          exact hk
      · have hq2 : ∀ p ∈ q2, m0.InGrid p ∧
            ∃ j, m.getVisitOrder p = some j ∧ 0 ≤ j ∧ j < counter := by
          intro p hp
          exact inv.qmem p (List.mem_cons_of_mem cur hp)
        have inv2 : BfsInv m0 m q2 counter :=
          ⟨inv.gdims, inv.wd, inv.ht, inv.walls, inv.cpos, inv.cbound, hq2,
            inv.ordOk, inv.noPath⟩
        have hexp := bfsExpand_inv m0 cur
          [Direction.South, Direction.West, Direction.East, Direction.North]
          (by intro x hx; fin_cases hx <;> simp [dirs4])
          m q2 counter inv2 hcurg ⟨k, hk, hk0, hkc⟩
        have hrec := ih _ _ _ hexp.1
        refine ⟨?_, ?_⟩
        · obtain ⟨qq, cc, hinv⟩ := hrec.1
          refine ⟨qq, cc, ?_⟩
          simp only [bfsLoop, if_neg hce]
          exact hinv
        · intro hfound
          simp only [bfsLoop, if_neg hce] at hfound
          have := hrec.2 hfound
          simp only [bfsLoop, if_neg hce]
          exact this

theorem GoodDims_of_dims (m m' : Maze)
    (h : m'.width = m.width ∧ m'.height = m.height ∧
      m'.cells.length = m.cells.length ∧
      m'.visitOrder.length = m.visitOrder.length)
    (hg : GoodDims m) : GoodDims m' := by
  obtain ⟨a, b, c, e⟩ := hg
  exact ⟨by rw [h.1]; exact a, by rw [h.2.1]; exact b,
    by rw [h.2.2.1, h.1, h.2.1]; exact c,
    by rw [h.2.2.2, h.1, h.2.1]; exact e⟩

theorem OrdOk_pres (m0 m m' : Maze) (hord : OrdOk m0 m)
    (ho : ∀ p, m'.getVisitOrder p = m.getVisitOrder p)
    (hd : ∀ p, m'.getDirectionRouteBT p = m.getDirectionRouteBT p) :
    OrdOk m0 m' := by
  intro p hp
  obtain ⟨v, hv, hrest⟩ := hord p hp
  refine ⟨v, by rw [ho]; exact hv, ?_⟩
  rcases hrest with h1 | ⟨h0, hpar⟩
  · exact Or.inl h1
  · refine Or.inr ⟨h0, ?_⟩
    rcases hpar with ⟨hst, hpd⟩ | ⟨d, hdm, hpd, hcm, hg2, k2, hk2, hk20, hk2v⟩
    · exact Or.inl ⟨hst, by rw [hd]; exact hpd⟩
    · exact Or.inr ⟨d, hdm, by rw [hd]; exact hpd, hcm, hg2, k2,
        by rw [ho]; exact hk2, hk20, hk2v⟩

theorem ChainLinked_congr (m m' : Maze)
    (hcm : ∀ p d, m'.canMove p d = m.canMove p d) :
    ∀ l, ChainLinked m' l ↔ ChainLinked m l := by
  intro l
  induction l with
  | nil => exact Iff.rfl
  | cons p rest ih =>
    cases rest with
    | nil => exact Iff.rfl
    | cons q rest2 =>
      simp only [ChainLinked, hcm]
      exact and_congr Iff.rfl ih

theorem mem_of_getLast?_eq {α} (l : List α) (a : α) (h : l.getLast? = some a) :
    a ∈ l := by
  obtain ⟨hne, heq⟩ := List.mem_getLast?_eq_getLast (l := l) (x := a) h
  rw [heq]
  exact List.getLast_mem hne

/-- When the backtrack loop completes it has marked exactly a
duplicate-free open-edge chain from the entry cell to the start, along
strictly decreasing visit orders, without touching orders, walls or
dimensions. -/
theorem parentBacktrack_spec (m0 : Maze) :
    ∀ (fuel : Nat) (m : Maze) (curr : Position) (k : Int),
    GoodDims m → m.width = m0.width → m.height = m0.height →
    (∀ p, m.getCell p &&& 3 = m0.getCell p &&& 3) →
    OrdOk m0 m →
    m0.InGrid curr → m.getVisitOrder curr = some k → 0 ≤ k →
    (parentBacktrack m0.getStart fuel m curr).2.2 = true →
    ∃ l : List Position,
      l.head? = some curr ∧
      l.getLast? = some m0.getStart ∧
      ChainLinked m0 l ∧
      l.Nodup ∧
      (∀ x ∈ l, m0.InGrid x) ∧
      (∀ x ∈ l, ∃ v, m.getVisitOrder x = some v ∧ 0 ≤ v ∧ v ≤ k) ∧
      (l.length : Int) ≤ k + 1 ∧
      (∀ p, (parentBacktrack m0.getStart fuel m curr).2.1.hasFlag p
          InternalBit.PATH_BIT = true ↔
        (m.hasFlag p InternalBit.PATH_BIT = true ∨ p ∈ l)) ∧
      (∀ p, (parentBacktrack m0.getStart fuel m curr).2.1.getVisitOrder p =
        m.getVisitOrder p) ∧
      (parentBacktrack m0.getStart fuel m curr).2.1.width = m.width ∧
      (parentBacktrack m0.getStart fuel m curr).2.1.height = m.height ∧
      (∀ p, (parentBacktrack m0.getStart fuel m curr).2.1.getCell p &&& 3 =
        m.getCell p &&& 3) ∧
      GoodDims (parentBacktrack m0.getStart fuel m curr).2.1 := by
  intro fuel
  induction fuel with
  | zero =>
    intro m curr k _ _ _ _ _ _ _ _ hdone
    simp [parentBacktrack] at hdone
  | succ n ih =>
    intro m curr k hg hw hh hwalls hord hcurg hk hk0 hdone
    have hmcurg : m.InGrid curr := (Maze.InGrid_congr m0 m hw hh curr).mpr hcurg
    have hdims1 := Maze.markPath_dims m curr
    have hg1 : GoodDims (m.markPath curr) := GoodDims_of_dims m _ hdims1 hg
    have hord1 : OrdOk m0 (m.markPath curr) :=
      OrdOk_pres m0 m _ hord (fun p => Maze.getVisitOrder_markPath m curr p)
        (fun p => Maze.pdir_markPath m curr p hg hmcurg)
    by_cases hcs : curr = m0.getStart
    · refine ⟨[curr], rfl, by simp [hcs], trivial, by simp, by simp [hcurg],
        ?_, ?_, ?_, ?_, ?_, ?_, ?_, ?_⟩
      · intro x hx
        simp at hx
        subst hx
        exact ⟨k, hk, hk0, le_refl k⟩
      · simp
        omega
      · intro p
        simp only [parentBacktrack]
        rw [if_pos hcs]
        rw [Maze.path_markPath m curr p hg hmcurg]
        simp
      · intro p
        simp only [parentBacktrack]
        rw [if_pos hcs]
        exact Maze.getVisitOrder_markPath m curr p
      · simp only [parentBacktrack]
        rw [if_pos hcs]
        exact hdims1.1
      · simp only [parentBacktrack]
        rw [if_pos hcs]
        exact hdims1.2.1
      · intro p
        simp only [parentBacktrack]
        rw [if_pos hcs]
        exact Maze.walls_markPath m curr hg hmcurg p
      · simp only [parentBacktrack]
        rw [if_pos hcs]
        exact hg1
    · obtain ⟨v, hv, hrest⟩ := hord curr hcurg
      have hvk : v = k := by
        rw [hk] at hv
        simpa using hv.symm
      rcases hrest with h1 | ⟨_, hpar⟩
      · exact absurd h1 (by omega)
      rcases hpar with ⟨hst, _⟩ | ⟨d, hdm, hpd, hcm0, hg2, k2, hk2, hk20, hk2v⟩
      · exact absurd hst hcs
      have hpd1 : (m.markPath curr).getDirectionRouteBT curr = d :=
        (Maze.pdir_markPath m curr curr hg hmcurg).trans hpd
      have hdne : d ≠ Direction.Uninitialized := ne_unint_of_mem_dirs4 d hdm
      have hk2' : (m.markPath curr).getVisitOrder (curr.move d) = some k2 :=
        (Maze.getVisitOrder_markPath m curr _).trans hk2
      have hdone' : (parentBacktrack m0.getStart n (m.markPath curr)
          (curr.move d)).2.2 = true := by
        simp only [parentBacktrack] at hdone
        rw [if_neg hcs, hpd1, if_neg hdne] at hdone
        exact hdone
      obtain ⟨l', hhead', hlast', hchain', hnd', hgrid', hords', hlen', hflags',
          hop', hwp', hhp', hwallsp', hgp'⟩ :=
        ih (m.markPath curr) (curr.move d) k2 hg1
          (by rw [hdims1.1]; exact hw) (by rw [hdims1.2.1]; exact hh)
          (fun p => (Maze.walls_markPath m curr hg hmcurg p).trans (hwalls p))
          hord1 hg2 hk2' hk20 hdone'
      rcases l' with _ | ⟨x, rest⟩
      · simp at hhead'
      have hx : x = curr.move d := by simpa using hhead'
      subst hx
      have hcnm : curr ∉ curr.move d :: rest := by
        intro hmem
        obtain ⟨v2, hv2, hv20, hv2k2⟩ := hords' curr hmem
        rw [Maze.getVisitOrder_markPath m curr curr, hk] at hv2
        have : v2 = k := by simpa using hv2.symm
        omega
      have hred : parentBacktrack m0.getStart (n + 1) m curr =
          (Tok.BACKTRACKING :: (parentBacktrack m0.getStart n (m.markPath curr)
              (curr.move d)).1,
            (parentBacktrack m0.getStart n (m.markPath curr) (curr.move d)).2.1,
            (parentBacktrack m0.getStart n (m.markPath curr) (curr.move d)).2.2) := by
        simp only [parentBacktrack]
        rw [if_neg hcs, hpd1, if_neg hdne]
      refine ⟨curr :: curr.move d :: rest, rfl, ?_, ?_, ?_, ?_, ?_, ?_, ?_, ?_,
        ?_, ?_, ?_, ?_⟩
      · rw [List.getLast?_cons_cons]
        exact hlast'
      · exact ⟨⟨d, hdm, rfl, hcm0⟩, hchain'⟩
      · exact List.nodup_cons.mpr ⟨hcnm, hnd'⟩
      · intro x hx
        rcases List.mem_cons.mp hx with hx | hx
        · subst hx; exact hcurg
        · exact hgrid' x hx
      · intro x hx
        rcases List.mem_cons.mp hx with hx | hx
        · subst hx; exact ⟨k, hk, hk0, le_refl k⟩
        · obtain ⟨v2, hv2, hv20, hv2k2⟩ := hords' x hx
          rw [Maze.getVisitOrder_markPath m curr x] at hv2
          exact ⟨v2, hv2, hv20, by omega⟩
      · simp only [List.length_cons] at hlen' ⊢
        push_cast at hlen' ⊢
        omega
      · intro p
        rw [hred]
        have := hflags' p
        rw [Maze.path_markPath m curr p hg hmcurg] at this
        rw [this]
        simp only [List.mem_cons]
        tauto
      · intro p
        rw [hred]
        exact (hop' p).trans (Maze.getVisitOrder_markPath m curr p)
      · rw [hred]
        exact hwp'.trans hdims1.1
      · rw [hred]
        exact hhp'.trans hdims1.2.1
      · intro p
        rw [hred]
        exact (hwallsp' p).trans (Maze.walls_markPath m curr hg hmcurg p)
      · rw [hred]
        exact hgp'

theorem LoadedState_goodDims (m0 : Maze) (h : LoadedState m0) : GoodDims m0 :=
  ⟨h.1, h.2.1, h.2.2.1, h.2.2.2.1⟩

theorem LoadedState_ord (m0 : Maze) (h : LoadedState m0) (p : Position)
    (hp : m0.InGrid p) : m0.getVisitOrder p = some (-1) := by
  have hidx : (m0.cellIndex p).toNat < m0.visitOrder.length := by
    have h1 := Maze.cellIndex_nonneg m0 p hp
    have h2 := Maze.cellIndex_lt m0 p hp
    have h3 := (GoodDims.size_int m0 (LoadedState_goodDims m0 h)).2
    omega
  have hidx2 : (p.row * m0.width + p.col).toNat < m0.visitOrder.length := hidx
  have hlen : p.row * m0.width + p.col < (m0.visitOrder.length : Int) := by
    have h1 := Maze.cellIndex_nonneg m0 p hp
    simp only [Maze.cellIndex] at h1
    omega
  rw [Maze.getVisitOrder_eq_getD m0 p hp hlen]
  rw [List.getD_eq_getElem m0.visitOrder 0 hidx2]
  have hmem := List.getElem_mem hidx2
  rw [h.2.2.2.2.2 _ hmem]

theorem LoadedState_start_inGrid (m0 : Maze) (h : LoadedState m0) :
    m0.InGrid m0.getStart := by
  obtain ⟨hw, hh, -⟩ := h
  exact ⟨le_refl 0, show (0 : Int) < m0.height by omega,
    show (0 : Int) ≤ m0.width / 2 by omega,
    show m0.width / 2 < m0.width by omega⟩

theorem LoadedState_end_inGrid (m0 : Maze) (h : LoadedState m0) :
    m0.InGrid m0.getEnd := by
  obtain ⟨hw, hh, -⟩ := h
  exact ⟨show (0 : Int) ≤ m0.height - 1 by omega,
    show m0.height - 1 < m0.height by omega,
    show (0 : Int) ≤ m0.width / 2 by omega,
    show m0.width / 2 < m0.width by omega⟩

theorem LoadedState_noFlag (m0 : Maze) (h : LoadedState m0) (b : Nat)
    (hb : 3 &&& b = 0) : ∀ p, m0.hasFlag p b = false := by
  intro p
  by_cases hp : m0.InGrid p
  · have hidx : (m0.cellIndex p).toNat < m0.cells.length := by
      have h1 := Maze.cellIndex_nonneg m0 p hp
      have h2 := Maze.cellIndex_lt m0 p hp
      have h3 := (GoodDims.size_int m0 (LoadedState_goodDims m0 h)).1
      omega
    have hidx2 : (p.row * m0.width + p.col).toNat < m0.cells.length := hidx
    have hmem : m0.getCell p ∈ m0.cells := by
      rw [Maze.getCell_eq_getD m0 p hp]
      rw [List.getD_eq_getElem m0.cells 0 hidx2]
      exact List.getElem_mem hidx2
    have h3 := h.2.2.2.2.1 (m0.getCell p) hmem
    unfold Maze.hasFlag
    have hz : m0.getCell p &&& b = 0 := by
      conv_lhs => rw [← h3]
      rw [Nat.land_assoc, hb]
      simp
    rw [hz]
    rfl
  · unfold Maze.hasFlag
    rw [Maze.getCell_out m0 p hp]
    simp

/-- The invariant holds for the state the BFS solver builds before
entering its loop. -/
theorem bfs_init_inv (m0 : Maze) (h : LoadedState m0) :
    BfsInv m0 ((m0.setVisitOrder m0.getStart 0).setDirectionRouteBT
      m0.getStart Direction.Uninitialized) [m0.getStart] 1 := by
  have hg0 := LoadedState_goodDims m0 h
  have hsg := LoadedState_start_inGrid m0 h
  have hdimsA := Maze.setVisitOrder_dims m0 m0.getStart 0
  have hgA : GoodDims (m0.setVisitOrder m0.getStart 0) :=
    GoodDims_of_dims m0 _ hdimsA hg0
  have hAsg : (m0.setVisitOrder m0.getStart 0).InGrid m0.getStart :=
    (Maze.InGrid_congr m0 _ hdimsA.1 hdimsA.2.1 m0.getStart).mpr hsg
  have hdimsB := Maze.setDirectionRouteBT_dims (m0.setVisitOrder m0.getStart 0)
    m0.getStart Direction.Uninitialized
  have hgB : GoodDims ((m0.setVisitOrder m0.getStart 0).setDirectionRouteBT
      m0.getStart Direction.Uninitialized) :=
    GoodDims_of_dims _ _ hdimsB hgA
  have hordB : ∀ p, m0.InGrid p →
      ((m0.setVisitOrder m0.getStart 0).setDirectionRouteBT m0.getStart
        Direction.Uninitialized).getVisitOrder p =
      if p = m0.getStart then some 0 else some (-1) := by
    intro p hp
    rw [Maze.getVisitOrder_setDirectionRouteBT,
      Maze.getVisitOrder_setVisitOrder m0 m0.getStart p 0 hg0 hsg hp]
    by_cases hps : p = m0.getStart
    · rw [if_pos hps, if_pos hps]
    · rw [if_neg hps, if_neg hps]
      exact LoadedState_ord m0 h p hp
  refine ⟨hgB, by rw [hdimsB.1, hdimsA.1], by rw [hdimsB.2.1, hdimsA.2.1],
    ?_, le_refl 1, ?_, ?_, ?_, ?_⟩
  · intro p
    rw [Maze.walls_setDirectionRouteBT _ m0.getStart Direction.Uninitialized hgA
      hAsg p, Maze.walls_setVisitOrder m0 m0.getStart p 0]
  · intro p hp v hv
    rw [hordB p hp] at hv
    by_cases hps : p = m0.getStart
    · rw [if_pos hps] at hv
      have : (0 : Int) = v := by simpa using hv
      omega
    · rw [if_neg hps] at hv
      have : (-1 : Int) = v := by simpa using hv
      omega
  · intro p hp
    simp only [List.mem_singleton] at hp
    subst hp
    exact ⟨hsg, 0, by rw [hordB _ hsg, if_pos rfl], le_refl 0, by omega⟩
  · intro p hp
    by_cases hps : p = m0.getStart
    · subst hps
      refine ⟨0, by rw [hordB _ hp, if_pos rfl], Or.inr ⟨le_refl 0, Or.inl ⟨rfl, ?_⟩⟩⟩
      rw [Maze.pdir_setDirectionRouteBT_self _ m0.getStart Direction.Uninitialized
        hgA hAsg]
    · exact ⟨-1, by rw [hordB _ hp, if_neg hps], Or.inl rfl⟩
  · intro p
    rw [Maze.path_setDirectionRouteBT _ m0.getStart Direction.Uninitialized hgA
      hAsg p, Maze.path_setVisitOrder m0 m0.getStart p 0]
    exact LoadedState_noFlag m0 h InternalBit.PATH_BIT (by decide) p

theorem bfsLoop_toks (endP : Position) :
    ∀ (fuel : Nat) (m : Maze) (q : List Position) (counter : Int),
    ∀ t ∈ (bfsLoop endP fuel m q counter).1, t = Tok.SEARCHING := by
  intro fuel
  induction fuel with
  | zero =>
    intro m q counter t ht
    simp [bfsLoop] at ht
  | succ n ih =>
    intro m q counter t ht
    match q with
    | [] => simp [bfsLoop] at ht
    | cur :: q2 =>
      by_cases hce : cur = endP
      · simp only [bfsLoop, if_pos hce] at ht
        simpa using ht
      · simp only [bfsLoop, if_neg hce, List.mem_cons] at ht
        rcases ht with ht | ht
        · exact ht
        · exact ih _ _ _ t ht

theorem parentBacktrack_toks (s : Position) :
    ∀ (fuel : Nat) (m : Maze) (c : Position),
    ∀ t ∈ (parentBacktrack s fuel m c).1, t = Tok.BACKTRACKING := by
  intro fuel
  induction fuel with
  | zero =>
    intro m c t ht
    simp [parentBacktrack] at ht
  | succ n ih =>
    intro m c t ht
    by_cases hcs : c = s
    · simp only [parentBacktrack, if_pos hcs] at ht
      simpa using ht
    · simp only [parentBacktrack, if_neg hcs] at ht
      by_cases hpd : (m.markPath c).getDirectionRouteBT c = Direction.Uninitialized
      · rw [if_pos hpd] at ht
        simpa using ht
      · rw [if_neg hpd] at ht
        rcases List.mem_cons.mp ht with ht | ht
        · exact ht
        · exact ih _ _ t ht

theorem mem_gridPositions (m : Maze) (p : Position) :
    p ∈ gridPositions m ↔ m.InGrid p := by
  rcases p with ⟨row, col⟩
  simp only [gridPositions, List.mem_flatMap, List.mem_map, List.mem_range]
  constructor
  · rintro ⟨r, hr, c, hc, heq⟩
    have hrow : (r : Int) = row := congrArg Position.row heq
    have hcol : (c : Int) = col := congrArg Position.col heq
    exact ⟨show (0 : Int) ≤ row by omega, show row < m.height by omega,
      show (0 : Int) ≤ col by omega, show col < m.width by omega⟩
  · intro hg
    have hg2 : 0 ≤ row ∧ row < m.height ∧ 0 ≤ col ∧ col < m.width := hg
    obtain ⟨h1, h2, h3, h4⟩ := hg2
    refine ⟨row.toNat, by omega, col.toNat, by omega, ?_⟩
    have hr : ((row.toNat : Int)) = row := Int.toNat_of_nonneg h1
    have hc : ((col.toNat : Int)) = col := Int.toNat_of_nonneg h3
    rw [hr, hc]

theorem nodup_gridRow (w : Nat) (r : Nat) :
    ((List.range w).map
      (fun (c : Nat) => (⟨(r : Int), (c : Int)⟩ : Position))).Nodup := by
  have hinj : Function.Injective
      (fun (c : Nat) => (⟨(r : Int), (c : Int)⟩ : Position)) := by
    intro a b hab
    have h2 : (a : Int) = (b : Int) := congrArg Position.col hab
    exact_mod_cast h2
  exact @List.Nodup.map Nat Position (List.range w)
    (fun (c : Nat) => (⟨(r : Int), (c : Int)⟩ : Position)) hinj
    (List.nodup_range w)

theorem nodup_gridAux (w : Nat) :
    ∀ rs : List Nat, rs.Nodup →
    (rs.flatMap (fun (r : Nat) => (List.range w).map
      (fun (c : Nat) => (⟨(r : Int), (c : Int)⟩ : Position)))).Nodup := by
  intro rs
  induction rs with
  | nil =>
    intro _
    simp
  | cons r rest ih =>
    intro hnd
    rw [List.flatMap_cons, List.nodup_append]
    refine ⟨nodup_gridRow w r, ih (List.nodup_cons.mp hnd).2, ?_⟩
    intro a ha hb
    simp only [List.mem_map, List.mem_range] at ha
    simp only [List.mem_flatMap, List.mem_map, List.mem_range] at hb
    obtain ⟨c, hc, rfl⟩ := ha
    obtain ⟨r2, hr2, c2, hc2, heq⟩ := hb
    have hrr : (r2 : Int) = (r : Int) := congrArg Position.row heq
    have hr2r : r2 = r := by exact_mod_cast hrr
    exact (List.nodup_cons.mp hnd).1 (hr2r ▸ hr2)

theorem nodup_gridPositions (m : Maze) : (gridPositions m).Nodup :=
  nodup_gridAux m.width.toNat (List.range m.height.toNat)
    (List.nodup_range m.height.toNat)

theorem pathCells_length_of_iff (m : Maze) (l : List Position) (hnd : l.Nodup)
    (hiff : ∀ p, p ∈ pathCells m ↔ p ∈ l) :
    (pathCells m).length = l.length := by
  have h1 : (pathCells m).Nodup := List.Nodup.filter _ (nodup_gridPositions m)
  have hperm : List.Perm (pathCells m) l :=
    (List.perm_ext_iff_of_nodup h1 hnd).mpr hiff
  exact hperm.length_eq

/-- C3 (amended): on every loaded maze on which the BFS solver ends with
FINISHED, the visit-order value stored at End is the (nonnegative) BFS
discovery index K of End, and the cells marked ON_PATH are exactly a
duplicate-free open-edge chain leading from End to Start whose cell
count is at most K + 1.  (The literal claim, that the value at End is
the BFS distance in cells and the ON_PATH count is that distance plus
one, is refuted by C3_counterexample: the stored value is the global
discovery counter, not a per-layer distance.) -/
theorem C3_bfs_amended (m0 : Maze) (fuel : Nat) (hload : LoadedState m0)
    (hfin : (BFSSolver.solve_step_by_step m0 fuel).1.getLast? =
      some Tok.FINISHED) :
    ∃ (l : List Position) (K : Int),
      (BFSSolver.solve_step_by_step m0 fuel).2.getVisitOrder m0.getEnd =
        some K ∧
      0 ≤ K ∧
      l.head? = some m0.getEnd ∧
      l.getLast? = some m0.getStart ∧
      l.Nodup ∧
      ChainLinked (BFSSolver.solve_step_by_step m0 fuel).2 l ∧
      (∀ p, (BFSSolver.solve_step_by_step m0 fuel).2.hasFlag p
        InternalBit.PATH_BIT = true ↔ p ∈ l) ∧
      (pathCells (BFSSolver.solve_step_by_step m0 fuel).2).length = l.length ∧
      (l.length : Int) ≤ K + 1 := by
  have hinv0 := bfs_init_inv m0 hload
  have hpost := bfsLoop_post m0 m0.getEnd fuel
    ((m0.setVisitOrder m0.getStart 0).setDirectionRouteBT m0.getStart
      Direction.Uninitialized) [m0.getStart] 1 hinv0
  rcases hopt : (bfsLoop m0.getEnd fuel
      ((m0.setVisitOrder m0.getStart 0).setDirectionRouteBT m0.getStart
        Direction.Uninitialized) [m0.getStart] 1).2.2 with _ | b
  · exfalso
    have hs : BFSSolver.solve_step_by_step m0 fuel =
        ((bfsLoop m0.getEnd fuel
          ((m0.setVisitOrder m0.getStart 0).setDirectionRouteBT m0.getStart
            Direction.Uninitialized) [m0.getStart] 1).1,
         (bfsLoop m0.getEnd fuel
          ((m0.setVisitOrder m0.getStart 0).setDirectionRouteBT m0.getStart
            Direction.Uninitialized) [m0.getStart] 1).2.1) := by
      simp only [BFSSolver.solve_step_by_step]
      rw [hopt]
    rw [hs] at hfin
    have hmem := mem_of_getLast?_eq _ _ hfin
    have := bfsLoop_toks m0.getEnd fuel _ _ _ Tok.FINISHED hmem
    exact absurd this (by decide)
  · cases b with
    | false =>
      exfalso
      have hs : BFSSolver.solve_step_by_step m0 fuel =
          ((bfsLoop m0.getEnd fuel
            ((m0.setVisitOrder m0.getStart 0).setDirectionRouteBT m0.getStart
              Direction.Uninitialized) [m0.getStart] 1).1 ++ [Tok.NO_SOLUTION],
           (bfsLoop m0.getEnd fuel
            ((m0.setVisitOrder m0.getStart 0).setDirectionRouteBT m0.getStart
              Direction.Uninitialized) [m0.getStart] 1).2.1) := by
        simp only [BFSSolver.solve_step_by_step]
        rw [hopt]
      rw [hs] at hfin
      rw [List.getLast?_concat] at hfin
      exact absurd hfin (by decide)
    | true =>
      obtain ⟨q2, c2, hinvr⟩ := hpost.1
      obtain ⟨hendg, K, hK, hK0⟩ := hpost.2 hopt
      by_cases hbt : (parentBacktrack m0.getStart fuel
          (bfsLoop m0.getEnd fuel
            ((m0.setVisitOrder m0.getStart 0).setDirectionRouteBT m0.getStart
              Direction.Uninitialized) [m0.getStart] 1).2.1 m0.getEnd).2.2 = true
      · have hs : BFSSolver.solve_step_by_step m0 fuel =
            ((bfsLoop m0.getEnd fuel
              ((m0.setVisitOrder m0.getStart 0).setDirectionRouteBT m0.getStart
                Direction.Uninitialized) [m0.getStart] 1).1 ++
             (parentBacktrack m0.getStart fuel
              (bfsLoop m0.getEnd fuel
                ((m0.setVisitOrder m0.getStart 0).setDirectionRouteBT m0.getStart
                  Direction.Uninitialized) [m0.getStart] 1).2.1 m0.getEnd).1 ++
             [Tok.FINISHED],
             (parentBacktrack m0.getStart fuel
              (bfsLoop m0.getEnd fuel
                ((m0.setVisitOrder m0.getStart 0).setDirectionRouteBT m0.getStart
                  Direction.Uninitialized) [m0.getStart] 1).2.1 m0.getEnd).2.1) := by
          simp only [BFSSolver.solve_step_by_step]
          rw [hopt]
          simp only []
          rw [if_pos hbt]
        obtain ⟨l, hhead, hlast, hchain, hnd, hgrid, hords, hlen, hflags, hop,
            hwp, hhp, hwallsp, hgp⟩ :=
          parentBacktrack_spec m0 fuel _ m0.getEnd K hinvr.gdims hinvr.wd
            hinvr.ht hinvr.walls hinvr.ordOk hendg hK hK0 hbt
        have hw2 : (parentBacktrack m0.getStart fuel
            (bfsLoop m0.getEnd fuel
              ((m0.setVisitOrder m0.getStart 0).setDirectionRouteBT m0.getStart
                Direction.Uninitialized) [m0.getStart] 1).2.1
            m0.getEnd).2.1.width = m0.width := hwp.trans hinvr.wd
        have hh2 : (parentBacktrack m0.getStart fuel
            (bfsLoop m0.getEnd fuel
              ((m0.setVisitOrder m0.getStart 0).setDirectionRouteBT m0.getStart
                Direction.Uninitialized) [m0.getStart] 1).2.1
            m0.getEnd).2.1.height = m0.height := hhp.trans hinvr.ht
        have hwalls2 : ∀ p, (parentBacktrack m0.getStart fuel
            (bfsLoop m0.getEnd fuel
              ((m0.setVisitOrder m0.getStart 0).setDirectionRouteBT m0.getStart
                Direction.Uninitialized) [m0.getStart] 1).2.1
            m0.getEnd).2.1.getCell p &&& 3 = m0.getCell p &&& 3 :=
          fun p => (hwallsp p).trans (hinvr.walls p)
        have hiff2 : ∀ p, (parentBacktrack m0.getStart fuel
            (bfsLoop m0.getEnd fuel
              ((m0.setVisitOrder m0.getStart 0).setDirectionRouteBT m0.getStart
                Direction.Uninitialized) [m0.getStart] 1).2.1
            m0.getEnd).2.1.hasFlag p InternalBit.PATH_BIT = true ↔ p ∈ l := by
          intro p
          rw [hflags p]
          simp [hinvr.noPath p]
        refine ⟨l, K, ?_, hK0, hhead, hlast, hnd, ?_, ?_, ?_, hlen⟩
        · rw [hs]
          rw [hop m0.getEnd]
          exact hK
        · rw [hs]
          refine (ChainLinked_congr m0 _ ?_ l).mpr hchain
          intro p d
          exact Maze.canMove_congr m0 _ hw2 hh2 hwalls2 p d
        · intro p
          rw [hs]
          exact hiff2 p
        · rw [hs]
          refine pathCells_length_of_iff _ l hnd ?_
          intro p
          simp only [pathCells, List.mem_filter, mem_gridPositions]
          constructor
          · rintro ⟨_, hf⟩
            exact (hiff2 p).mp hf
          · intro hpl
            refine ⟨?_, (hiff2 p).mpr hpl⟩
            exact (Maze.InGrid_congr m0 _ hw2 hh2 p).mpr (hgrid p hpl)
      · exfalso
        have hs : BFSSolver.solve_step_by_step m0 fuel =
            ((bfsLoop m0.getEnd fuel
              ((m0.setVisitOrder m0.getStart 0).setDirectionRouteBT m0.getStart
                Direction.Uninitialized) [m0.getStart] 1).1 ++
             (parentBacktrack m0.getStart fuel
              (bfsLoop m0.getEnd fuel
                ((m0.setVisitOrder m0.getStart 0).setDirectionRouteBT m0.getStart
                  Direction.Uninitialized) [m0.getStart] 1).2.1 m0.getEnd).1,
             (parentBacktrack m0.getStart fuel
              (bfsLoop m0.getEnd fuel
                ((m0.setVisitOrder m0.getStart 0).setDirectionRouteBT m0.getStart
                  Direction.Uninitialized) [m0.getStart] 1).2.1 m0.getEnd).2.1) := by
          simp only [BFSSolver.solve_step_by_step]
          rw [hopt]
          simp only []
          rw [if_neg hbt]
        rw [hs] at hfin
        have hmem := mem_of_getLast?_eq _ _ hfin
        rcases List.mem_append.mp hmem with hmem | hmem
        · have := bfsLoop_toks m0.getEnd fuel _ _ _ Tok.FINISHED hmem
          exact absurd this (by decide)
        · have := parentBacktrack_toks m0.getStart fuel _ _ Tok.FINISHED hmem
          exact absurd this (by decide)

/-- Witness: the amended C3 theorem applies to the all-open 3x3 maze,
whose BFS run finishes within 30 steps. -/
theorem C3_witness :
    LoadedState open3x3 ∧
    (BFSSolver.solve_step_by_step open3x3 30).1.getLast? =
      some Tok.FINISHED ∧
    (∃ (l : List Position) (K : Int),
      (BFSSolver.solve_step_by_step open3x3 30).2.getVisitOrder
        open3x3.getEnd = some K ∧
      0 ≤ K ∧
      l.head? = some open3x3.getEnd ∧
      l.getLast? = some open3x3.getStart ∧
      l.Nodup ∧
      ChainLinked (BFSSolver.solve_step_by_step open3x3 30).2 l ∧
      (∀ p, (BFSSolver.solve_step_by_step open3x3 30).2.hasFlag p
        InternalBit.PATH_BIT = true ↔ p ∈ l) ∧
      (pathCells (BFSSolver.solve_step_by_step open3x3 30).2).length =
        l.length ∧
      (l.length : Int) ≤ K + 1) :=
  ⟨by unfold LoadedState; decide, by decide,
    C3_bfs_amended open3x3 30 (by unfold LoadedState; decide) (by decide)⟩
